import Mathlib

/-!
Shallow embedding of the cercopes_dialog conversation engine
(crates/cercopes_dialog: lib.rs, conversation.rs, expander.rs, goal.rs).

Modelling conventions:
* Hash maps (`AHashMap`) are association lists `List (K × V)`; the list order
  stands for the arbitrary iteration order of the hash map.  Hash sets
  (`AHashSet`) are duplicate-free lists built with `insertSet`.
* The random generator is a stream of naturals (`Rng := List Nat`, exhausted
  entries read as 0).  `shuffle` is a Fisher-Yates style extraction shuffle
  driven by that stream; every function that takes `&mut Rng` in Rust takes
  and returns an `Rng` here.
* A Rust panic (out-of-bounds `HashMap` indexing, or unbounded recursion /
  stack overflow, modelled by running out of `fuel`) is the `Res.panicked`
  outcome, distinct from the `ExpanderErr` error values.
* Boxed trait objects: `GoalState` trait objects are defunctionalized into the
  inductive `GoalState` whose constructors are exactly the implementations in
  goal.rs; none of those implementations reads the `Conversation` argument of
  `next_step`/`made_move` (the conversation is passed with its goals detached),
  so the model omits that argument.  Preconditions, formatters and
  edit-historical-move callbacks stay as function fields.
* `sort_unstable_by` with the comparator of `get_next_speaker_moves` is
  modelled by `List.insertionSort` with the reflexive relation of the comparator;
  the comparator leaves the order of fully tied entries unspecified in Rust,
  just as the input iteration order already is.
-/

namespace Cercopes

/-- The random generator: a stream of raw draws. -/
abbrev Rng : Type := List Nat

/-- Draw one value from the stream (an exhausted stream keeps yielding 0). -/
def rngNext (rng : Rng) : Nat × Rng := (rng.headD 0, rng.tail)

/-- Fisher-Yates style extraction shuffle driven by the stream, with fuel equal
to the list length. -/
def shuffleAux {α : Type} : Nat → List α → Rng → List α × Rng
  | 0, l, rng => (l, rng)
  | n + 1, l, rng =>
    let (r, rng1) := rngNext rng
    match l.get? (r % l.length) with
    | none => (l, rng1)
    | some a =>
      let (rest, rng2) := shuffleAux n (l.eraseIdx (r % l.length)) rng1
      (a :: rest, rng2)

/-- Models `rand::seq::SliceRandom::shuffle`. -/
def shuffle {α : Type} (l : List α) (rng : Rng) : List α × Rng :=
  shuffleAux l.length l rng

/-- Models `rand::distributions::Bernoulli` (probability `num / den`). -/
structure Bern where
  num : Nat
  den : Nat
deriving DecidableEq

/-- Sampling a `Bernoulli` consumes one draw from the stream. -/
def Bern.sample (b : Bern) (rng : Rng) : Bool × Rng :=
  let (r, rng1) := rngNext rng
  (decide (r % b.den < b.num), rng1)

section AListOps

variable {K V : Type} [DecidableEq K]

/-- Rust `HashMap` lookup (`get` / the read half of `Index`). -/
def findVal : List (K × V) → K → Option V
  | [], _ => none
  | (k2, v) :: rest, k => if k = k2 then some v else findVal rest k

/-- Rust `HashMap::entry(k).or_insert(dflt)` followed by mutating the entry with
`f`.  A freshly created entry lands at an arbitrary place of the iteration
order; the model appends it. -/
def updateVal : List (K × V) → K → V → (V → V) → List (K × V)
  | [], k, dflt, f => [(k, f dflt)]
  | (k2, v) :: rest, k, dflt, f =>
    if k = k2 then (k2, f v) :: rest else (k2, v) :: updateVal rest k dflt f

/-- Rust `HashMap::remove` (hash map keys are unique, so removing the first
occurrence models it). -/
def eraseKey : List (K × V) → K → List (K × V)
  | [], _ => []
  | (k2, v) :: rest, k => if k = k2 then rest else (k2, v) :: eraseKey rest k

/-- The keys of the map, in iteration order. -/
def keysOf (l : List (K × V)) : List K := l.map Prod.fst

end AListOps

section SetOps

variable {α : Type} [DecidableEq α]

/-- Rust `HashSet::insert`: no duplicates, new elements at an arbitrary place of
the iteration order (the model appends). -/
def insertSet (l : List α) (a : α) : List α := if a ∈ l then l else l ++ [a]

/-- Rust `HashSet::extend`. -/
def extendSet (l : List α) (xs : List α) : List α := xs.foldl insertSet l

end SetOps

/-- Rust `Speaker` (conversation.rs). -/
inductive Speaker where
  | person0
  | person1
deriving DecidableEq

/-- The `Not` impl for `Speaker`. -/
def Speaker.flip : Speaker → Speaker
  | .person0 => .person1
  | .person1 => .person0

/-- Rust `TopicMetadata` (conversation.rs). -/
structure TopicMetadata where
  times_introduced : Nat
  times_addressed : Nat
deriving DecidableEq

/-- Rust `TopicMetadata::default`. -/
def TopicMetadata.default0 : TopicMetadata := ⟨0, 0⟩

/-- Rust `TopicMetadata::introduce`. -/
def TopicMetadata.introduce (m : TopicMetadata) : TopicMetadata :=
  { m with times_introduced := m.times_introduced + 1 }

/-- Rust `TopicMetadata::address`. -/
def TopicMetadata.address (m : TopicMetadata) : TopicMetadata :=
  { m with times_addressed := m.times_addressed + 1 }

/-- Rust `PushedObligationMetadata` (conversation.rs).  `urgency` is an `i32` in
the source; the merge rules only need that every actual urgency is at least
`i32::MIN`. -/
structure PushedObligationMetadata where
  urgency : Int
  time_to_live : Nat
  times_pushed : Nat
deriving DecidableEq

/-- Rust `i32::MIN`, the sentinel used by `merge_historical_obligations`. -/
def i32Min : Int := -(2 ^ 31)

/-- Rust `PushedObligationMetadata::timestep`: `checked_sub` succeeds exactly when
the TTL is positive; a TTL of 0 signals removal (`true`) without another
decrement. -/
def PushedObligationMetadata.timestep (m : PushedObligationMetadata) :
    PushedObligationMetadata × Bool :=
  if m.time_to_live = 0 then (m, true)
  else ({ m with time_to_live := m.time_to_live - 1 }, false)

/-- Rust `HistoricalObligations` (conversation.rs). -/
structure HistoricalObligations (M : Type) where
  pushed : List (M × PushedObligationMetadata)
  addressed : List M
deriving DecidableEq

/-- Rust `HistoricalObligations::push`: entry-or-insert with a zero `times_pushed`
default, then `push()` (increment) and the max merges of urgency and TTL. -/
def HistoricalObligations.push {M : Type} [DecidableEq M]
    (h : HistoricalObligations M) (dialog_move : M) (urgency : Int)
    (time_to_live : Nat) : HistoricalObligations M :=
  { h with pushed := (updateVal h.pushed dialog_move
      ⟨urgency, time_to_live, 0⟩
      (fun o => ⟨max o.urgency urgency, max o.time_to_live time_to_live,
        o.times_pushed + 1⟩)) }

/-- Rust `TopicState` (conversation.rs). -/
structure TopicState (T : Type) where
  introduced : List T
  addressed : List T
deriving DecidableEq

/-- Rust `TopicState::can_be_addressed`. -/
def TopicState.can_be_addressed {T : Type} [DecidableEq T]
    (s : TopicState T) (t : T) : Bool := decide (t ∉ s.addressed)

/-- Rust `TopicState::needs_addressing`. -/
def TopicState.needs_addressing {T : Type} [DecidableEq T]
    (s : TopicState T) (t : T) : Bool :=
  decide (t ∈ s.introduced) && s.can_be_addressed t

/-- Rust `TopicState::can_be_introduced`. -/
def TopicState.can_be_introduced {T : Type} [DecidableEq T]
    (s : TopicState T) (t : T) : Bool :=
  decide (t ∉ s.introduced) && s.can_be_addressed t

/-- Rust `HistoricalMove` (conversation.rs). -/
structure HistoricalMove (T M : Type) where
  utterance : String
  speaker : Speaker
  person0_obligations : HistoricalObligations M
  person1_obligations : HistoricalObligations M
  topic_state : TopicState T
deriving DecidableEq

/-- Rust `HistoricalMove::was_move_satisfied`. -/
def HistoricalMove.was_move_satisfied {T M : Type} [DecidableEq M]
    (h : HistoricalMove T M) (dialog_move : M) : Bool :=
  decide (dialog_move ∈ h.person0_obligations.addressed) ||
    decide (dialog_move ∈ h.person1_obligations.addressed)

/-- Rust `ParticipantState` (conversation.rs). -/
structure ParticipantState (T M C : Type) where
  topics : List (T × TopicMetadata)
  pushed_obligations : List (M × PushedObligationMetadata)
  character : C
deriving DecidableEq

/-- Rust `ParticipantState::new`. -/
def ParticipantState.new {T M C : Type} (character : C) :
    ParticipantState T M C := ⟨[], [], character⟩

/-- One participant timestep on the pushed-obligation map: step every
obligation, then remove the expired ones (the source collects the expired
keys during iteration and removes them afterwards; on an association list
this is one pass). -/
def stepPushedObligations {M : Type}
    (l : List (M × PushedObligationMetadata)) :
    List (M × PushedObligationMetadata) :=
  l.filterMap (fun kv =>
    let (m, expired) := kv.2.timestep
    if expired then none else some (kv.1, m))

/-- Rust `ParticipantState::timestep`. -/
def ParticipantState.timestep {T M C : Type} (p : ParticipantState T M C) :
    ParticipantState T M C :=
  { p with pushed_obligations := stepPushedObligations p.pushed_obligations }

/-- Rust `ParticipantState::merge_historical_obligations`. -/
def ParticipantState.merge_historical_obligations {T M C : Type}
    [DecidableEq M] (p : ParticipantState T M C)
    (hobl : HistoricalObligations M) : ParticipantState T M C :=
  let po := hobl.addressed.foldl eraseKey p.pushed_obligations
  { p with pushed_obligations := (hobl.pushed.foldl
      (fun m kv => updateVal m kv.1 ⟨i32Min, 0, 0⟩
        (fun o => ⟨max o.urgency kv.2.urgency,
          max o.time_to_live kv.2.time_to_live,
          o.times_pushed + kv.2.times_pushed⟩))
      po) }

/-- Rust `GoalPursuer` (goal.rs). -/
inductive GoalPursuer where
  | speaker (s : Speaker)
  | any
deriving DecidableEq

/-- Rust `GoalPursuer::agrees_with`. -/
def GoalPursuer.agrees_with : GoalPursuer → Speaker → Bool
  | .speaker s, sp => decide (s = sp)
  | .any, _ => true

/-- Rust `GoalMove` (goal.rs). -/
structure GoalMove (M : Type) where
  pursuer : GoalPursuer
  dialog_move : M
deriving DecidableEq

/-- The `GoalState` trait objects of goal.rs, defunctionalized: the
constructors are `PerformGoalMove`, `RepeatGoalMove`, `GoalSequence`,
`GoalEagerSequence` and `ConcatGoals`. -/
inductive GoalState (M : Type) where
  | performGoalMove (goal_move : GoalMove M) (satisfied : Bool)
  | repeatGoalMove (goal_move : GoalMove M) (reps max_reps : Nat)
  | goalSequence (sequence : List (GoalMove M))
  | goalEagerSequence (sequence : List (GoalMove M))
  | concatGoals (g1 g2 : GoalState M)
deriving DecidableEq

/-- Rust `GoalState::is_satisfied` of each implementation. -/
def GoalState.is_satisfied {M : Type} : GoalState M → Bool
  | .performGoalMove _ satisfied => satisfied
  | .repeatGoalMove _ reps max_reps => decide (max_reps ≤ reps)
  | .goalSequence s => s.isEmpty
  | .goalEagerSequence s => s.isEmpty
  | .concatGoals g1 g2 => g1.is_satisfied && g2.is_satisfied

/-- Rust `GoalState::next_step` of each implementation (none of them reads the
conversation argument). -/
def GoalState.next_step {M : Type} : GoalState M → Option (GoalMove M)
  | .performGoalMove gm satisfied => if satisfied then none else some gm
  | .repeatGoalMove gm reps max_reps =>
    if max_reps ≤ reps then none else some gm
  | .goalSequence s => s.head?
  | .goalEagerSequence s => s.head?
  | .concatGoals g1 g2 =>
    match g1.next_step with
    | some gm => some gm
    | none => g2.next_step

/-- The removal loop shared by `GoalSequence::made_move` and
`GoalEagerSequence::made_move`: scanning indices in reverse and removing every
entry whose pursuer matches the mover and whose move was satisfied removes
exactly those entries, i.e. it filters them out. -/
def removeSatisfiedMoves {T M : Type} [DecidableEq M]
    (history : HistoricalMove T M) (s : List (GoalMove M)) :
    List (GoalMove M) :=
  s.filter (fun gm =>
    !(gm.pursuer.agrees_with history.speaker &&
      history.was_move_satisfied gm.dialog_move))

/-- Rust `GoalState::made_move` of each implementation. -/
def GoalState.made_move {T M : Type} [DecidableEq M] :
    GoalState M → HistoricalMove T M → GoalState M
  | .performGoalMove gm satisfied, history =>
    if gm.pursuer.agrees_with history.speaker then
      .performGoalMove gm
        (satisfied || history.was_move_satisfied gm.dialog_move)
    else .performGoalMove gm satisfied
  | .repeatGoalMove gm reps max_reps, history =>
    if gm.pursuer.agrees_with history.speaker &&
        history.was_move_satisfied gm.dialog_move then
      .repeatGoalMove gm (reps + 1) max_reps
    else .repeatGoalMove gm reps max_reps
  | .goalSequence s, history => .goalSequence (removeSatisfiedMoves history s)
  | .goalEagerSequence s, history =>
    match s.getLast? with
    | some gm =>
      if gm.pursuer.agrees_with history.speaker &&
          history.was_move_satisfied gm.dialog_move then
        .goalEagerSequence []
      else .goalEagerSequence (removeSatisfiedMoves history s)
    | none => .goalEagerSequence (removeSatisfiedMoves history s)
  | .concatGoals g1 g2, history =>
    .concatGoals (g1.made_move history) (g2.made_move history)

/-- Rust `Conversation` (conversation.rs). -/
structure Conversation (T M C : Type) where
  initiator : Speaker
  speaker : Speaker
  person0 : ParticipantState T M C
  person1 : ParticipantState T M C
  topic_state : TopicState T
  history : List (HistoricalMove T M)
  goals : List (GoalState M)
  done : Bool
  lull_continue_chance : Bern
deriving DecidableEq

section Engine

variable {T M N C : Type}

/-- Rust `Precondition` (lib.rs): `None` counts as always true. -/
structure Precondition (T M C : Type) where
  condition : Option (Conversation T M C → Bool)

/-- Rust `Precondition::check`. -/
def Precondition.check (p : Precondition T M C) (c : Conversation T M C) :
    Bool :=
  match p.condition with
  | some condition => condition c
  | none => true

/-- Rust `MoveNode` (expander.rs).  The callbacks take and return the `Rng`
because they receive `&mut Rng` in the source; `edit_historical_move` also
mutates the conversation and the in-progress historical move. -/
structure MoveNode (T M N C : Type) where
  dialog_moves : List M
  addressed_topics : List T
  precondition : Precondition T M C
  edit_historical_move : Option (Conversation T M C → Rng →
    HistoricalMove T M → Conversation T M C × Rng × HistoricalMove T M)
  formatter : Conversation T M C → Rng → List String → String × Rng
  parts : List (List N)

/-- Rust `ExpanderErr` (expander.rs). -/
inductive ExpanderErr (T M : Type) where
  | noExpanderForMove (dialog_move : M)
  | noExpanderForTopic (topic : T)
  | noNodesSatisfyPreconditions
deriving DecidableEq

/-- The result of running a fallible piece of the engine: `ok`, an
`ExpanderErr` (Rust `Err`), or a panic (out-of-bounds map index or unbounded
recursion). -/
inductive Res (T M α : Type) where
  | ok (a : α)
  | err (e : ExpanderErr T M)
  | panicked
deriving DecidableEq

/-- Rust `ExpansionTree` (expander.rs); like the source it carries the node
identifier and the looked-up `MoveNode` alongside the realized parts. -/
inductive ETree (T M N C : Type) where
  | mk (expander_node : N) (move_node : MoveNode T M N C)
      (parts : List (ETree T M N C))

/-- The `expander_node` field of an `ExpansionTree`. -/
def ETree.expander_node : ETree T M N C → N
  | .mk n _ _ => n

/-- The `move_node` field of an `ExpansionTree`. -/
def ETree.move_node : ETree T M N C → MoveNode T M N C
  | .mk _ mv _ => mv

/-- The `parts` field of an `ExpansionTree`. -/
def ETree.parts : ETree T M N C → List (ETree T M N C)
  | .mk _ _ parts => parts

/-- Rust `Expander` (expander.rs): the registry and its three reverse indices. -/
structure Expander (T M N C : Type) where
  expander_nodes : List (N × MoveNode T M N C)
  addressing_move : List (M × List N)
  addressing_topic : List (T × List N)
  apart_of : List (N × List N)

variable [DecidableEq T] [DecidableEq M] [DecidableEq N]

/-- Rust `Expander::build`: clear the three reverse indices and rebuild them from
the registry. -/
def Expander.build (E : Expander T M N C) : Expander T M N C :=
  E.expander_nodes.foldl
    (fun acc p =>
      let am := p.2.dialog_moves.foldl
        (fun m dm => updateVal m dm [] (fun s => insertSet s p.1))
        acc.addressing_move
      let atp := p.2.addressed_topics.foldl
        (fun m t => updateVal m t [] (fun s => insertSet s p.1))
        acc.addressing_topic
      let ap := p.2.parts.foldl
        (fun m part => part.foldl
          (fun m2 pc => updateVal m2 pc [] (fun s => insertSet s p.1)) m)
        acc.apart_of
      { acc with addressing_move := am, addressing_topic := atp, apart_of := ap })
    { E with addressing_move := [], addressing_topic := [], apart_of := [] }

/-- Rust `Expander::new`. -/
def Expander.new (dialog_nodes : List (N × MoveNode T M N C)) :
    Expander T M N C :=
  Expander.build ⟨dialog_nodes, [], [], []⟩

/-- Rust `Expander::get_node`. -/
def Expander.get_node (E : Expander T M N C) (n : N) :
    Option (MoveNode T M N C) :=
  findVal E.expander_nodes n

/-- Rust `Expander::is_top_level`. -/
def Expander.is_top_level (E : Expander T M N C) (n : N) : Bool :=
  match findVal E.apart_of n with
  | some apart => apart.isEmpty
  | none => true

/-- The inner alternative loop of `Expander::forward_chain`, for one part
group: try each (already shuffled and skip-filtered) alternative index; the
first whose precondition holds is recursively chained through `fc` and the
outcome of that recursion is final (`?` in the source: a failing recursion is
propagated, later alternatives are not tried).  If no alternative has a true
precondition the part fails with `NoNodesSatisfyPreconditions`.  Indexing a
node identifier that is not registered panics (`HashMap` index). -/
def tryAlternatives (E : Expander T M N C) (c : Conversation T M C)
    (fc : ETree T M N C → Rng → Res T M (ETree T M N C) × Rng)
    (part : List N) : List Nat → Rng → Res T M (ETree T M N C) × Rng
  | [], rng => (.err .noNodesSatisfyPreconditions, rng)
  | i :: rest, rng =>
    match part.get? i with
    | none => (.panicked, rng)
    | some choice =>
      match E.get_node choice with
      | none => (.panicked, rng)
      | some move_node =>
        if move_node.precondition.check c then
          fc (.mk choice move_node []) rng
        else tryAlternatives E c fc part rest rng

/-- The outer part loop of `Expander::forward_chain`: for every part group in
declared order, filter out the skipped alternative index, shuffle, and realize
one alternative; the realized subtrees are collected in order. -/
def chainParts (E : Expander T M N C) (c : Conversation T M C)
    (fc : ETree T M N C → Rng → Res T M (ETree T M N C) × Rng)
    (skip : Option Nat) :
    List (List N) → Rng → Res T M (List (ETree T M N C)) × Rng
  | [], rng => (.ok [], rng)
  | part :: rest, rng =>
    let ids := (List.range part.length).filter (fun i => decide (some i ≠ skip))
    let (ids2, rng1) := shuffle ids rng
    match tryAlternatives E c fc part ids2 rng1 with
    | (.ok sub, rng2) =>
      match chainParts E c fc skip rest rng2 with
      | (.ok subs, rng3) => (.ok (sub :: subs), rng3)
      | (.err e, rng3) => (.err e, rng3)
      | (.panicked, rng3) => (.panicked, rng3)
    | (.err e, rng2) => (.err e, rng2)
    | (.panicked, rng2) => (.panicked, rng2)

/-- Rust `Expander::forward_chain`.  `fuel` bounds the recursion depth; running
out of fuel is the model of the unbounded recursion a cyclic part graph causes
in the source (a stack overflow, i.e. a panic, not an `Err`). -/
def forward_chain (E : Expander T M N C) (c : Conversation T M C) :
    Nat → ETree T M N C → Option Nat → Rng → Res T M (ETree T M N C) × Rng
  | 0, _, _, rng => (.panicked, rng)
  | fuel + 1, t, skip, rng =>
    match chainParts E c (fun t2 rng2 => forward_chain E c fuel t2 none rng2)
        skip t.move_node.parts rng with
    | (.ok subs, rng2) =>
      (.ok (.mk t.expander_node t.move_node (t.parts ++ subs)), rng2)
    | (.err e, rng2) => (.err e, rng2)
    | (.panicked, rng2) => (.panicked, rng2)

/-- The candidate loop of `Expander::expand_satisfying`: skip candidates whose
precondition fails, return the first whose forward chain succeeds, and treat
any chaining `Err` as "try the next candidate". -/
def expandLoop (E : Expander T M N C) (fuel : Nat) (c : Conversation T M C) :
    List (ETree T M N C) → Rng → Res T M (ETree T M N C) × Rng
  | [], rng => (.err .noNodesSatisfyPreconditions, rng)
  | t :: rest, rng =>
    if t.move_node.precondition.check c then
      match forward_chain E c fuel t none rng with
      | (.ok t2, rng2) => (.ok t2, rng2)
      | (.err _, rng2) => expandLoop E fuel c rest rng2
      | (.panicked, rng2) => (.panicked, rng2)
    else expandLoop E fuel c rest rng

/-- Rust `Expander::expand_satisfying`: shuffle the candidates, then run the
candidate loop. -/
def expand_satisfying (E : Expander T M N C) (fuel : Nat)
    (c : Conversation T M C) (satisfying : List (ETree T M N C)) (rng : Rng) :
    Res T M (ETree T M N C) × Rng :=
  let (l, rng1) := shuffle satisfying rng
  expandLoop E fuel c l rng1

/-- The candidate collection of `expand_dialog_move`/`expand_topic`: look
every node of the index entry up in the registry (an unregistered identifier
panics). -/
def collectSatisfying (E : Expander T M N C) :
    List N → Res T M (List (ETree T M N C))
  | [] => .ok []
  | n :: ns =>
    match E.get_node n with
    | none => .panicked
    | some move_node =>
      match collectSatisfying E ns with
      | .ok ts => .ok (.mk n move_node [] :: ts)
      | .err e => .err e
      | .panicked => .panicked

/-- Rust `Expander::expand_dialog_move`.  `self.addressing_move[dialog_move]` is a
`HashMap` index: a dialog move with no index entry panics; only an existing
but empty entry would reach the `NoExpanderForMove` branch. -/
def expand_dialog_move (E : Expander T M N C) (fuel : Nat)
    (c : Conversation T M C) (dialog_move : M) (rng : Rng) :
    Res T M (ETree T M N C) × Rng :=
  match findVal E.addressing_move dialog_move with
  | none => (.panicked, rng)
  | some nodes =>
    match collectSatisfying E nodes with
    | .ok satisfying =>
      if satisfying.isEmpty then
        (.err (.noExpanderForMove dialog_move), rng)
      else expand_satisfying E fuel c satisfying rng
    | .err e => (.err e, rng)
    | .panicked => (.panicked, rng)

/-- Rust `Expander::expand_topic` (symmetric to `expand_dialog_move`). -/
def expand_topic (E : Expander T M N C) (fuel : Nat)
    (c : Conversation T M C) (topic : T) (rng : Rng) :
    Res T M (ETree T M N C) × Rng :=
  match findVal E.addressing_topic topic with
  | none => (.panicked, rng)
  | some nodes =>
    match collectSatisfying E nodes with
    | .ok satisfying =>
      if satisfying.isEmpty then
        (.err (.noExpanderForTopic topic), rng)
      else expand_satisfying E fuel c satisfying rng
    | .err e => (.err e, rng)
    | .panicked => (.panicked, rng)

/-- The parent loop of `Expander::backward_chain`: iterate the recorded
parents in index order (not shuffled); skip parents whose precondition fails
or none of whose part groups lists the child; for the first remaining parent,
forward-chain the parent with `skip` set to the index of the part group that
contains the child (the source reuses that group index as an alternative
index inside every group), then insert the original child subtree at that
position.  A failing forward chain is propagated (`?`), not retried on later
parents. -/
def backwardLoop (E : Expander T M N C) (fuel : Nat)
    (c : Conversation T M C) (t : ETree T M N C) :
    List N → Rng → Res T M (ETree T M N C) × Rng
  | [], rng => (.err .noNodesSatisfyPreconditions, rng)
  | p :: ps, rng =>
    match E.get_node p with
    | none => (.panicked, rng)
    | some parent_node =>
      if parent_node.precondition.check c then
        match parent_node.parts.findIdx?
            (fun parts => decide (t.expander_node ∈ parts)) with
        | some part_id =>
          match forward_chain E c fuel (.mk p parent_node []) (some part_id)
              rng with
          | (.ok pt, rng2) =>
            (.ok (.mk pt.expander_node pt.move_node
              (pt.parts.insertIdx part_id t)), rng2)
          | (.err e, rng2) => (.err e, rng2)
          | (.panicked, rng2) => (.panicked, rng2)
        | none => backwardLoop E fuel c t ps rng
      else backwardLoop E fuel c t ps rng

/-- Rust `Expander::backward_chain`. -/
def backward_chain (E : Expander T M N C) (fuel : Nat)
    (c : Conversation T M C) (t : ETree T M N C) (rng : Rng) :
    Res T M (ETree T M N C) × Rng :=
  if E.is_top_level t.expander_node then (.ok t, rng)
  else
    match findVal E.apart_of t.expander_node with
    | none => (.panicked, rng)
    | some parents => backwardLoop E fuel c t parents rng

mutual

/-- Rust `ExpansionTree::create_utterance`: build the utterances of the children in tree
order, then pass them to the formatter of this node. -/
def ETree.create_utterance (c : Conversation T M C) :
    ETree T M N C → Rng → String × Rng
  | .mk _ move_node parts, rng =>
    let (us, rng1) := createUtteranceList c parts rng
    move_node.formatter c rng1 us

/-- The `parts.iter().map(...).collect()` of `create_utterance`. -/
def createUtteranceList (c : Conversation T M C) :
    List (ETree T M N C) → Rng → List String × Rng
  | [], rng => ([], rng)
  | t :: ts, rng =>
    let (u, rng1) := ETree.create_utterance c t rng
    let (us, rng2) := createUtteranceList c ts rng1
    (u :: us, rng2)

end

mutual

/-- Rust `ExpansionTree::create_historical`: post-order walk; children first,
then the declared dialog moves of this node are merged into the
addressed-obligations set of the speaking participant and its declared topics
into the topic-addressed set of the move, then the edit callback (which may
mutate the conversation, the rng and the historical move) runs. -/
def ETree.create_historical :
    ETree T M N C → Conversation T M C → Rng → HistoricalMove T M →
    Conversation T M C × Rng × HistoricalMove T M
  | .mk _ move_node parts, c, rng, hm =>
    let (c1, rng1, hm1) := createHistoricalList parts c rng hm
    let hm2 :=
      if c1.speaker = .person0 then
        { hm1 with person0_obligations :=
          ({ hm1.person0_obligations with addressed :=
            (extendSet hm1.person0_obligations.addressed move_node.dialog_moves) }) }
      else
        { hm1 with person1_obligations :=
          ({ hm1.person1_obligations with addressed :=
            (extendSet hm1.person1_obligations.addressed move_node.dialog_moves) }) }
    let hm3 := { hm2 with topic_state :=
      ({ hm2.topic_state with addressed :=
        (extendSet hm2.topic_state.addressed move_node.addressed_topics) }) }
    match move_node.edit_historical_move with
    | some edit => edit c1 rng1 hm3
    | none => (c1, rng1, hm3)

/-- The `for part in self.parts` loop of `create_historical`. -/
def createHistoricalList :
    List (ETree T M N C) → Conversation T M C → Rng → HistoricalMove T M →
    Conversation T M C × Rng × HistoricalMove T M
  | [], c, rng, hm => (c, rng, hm)
  | t :: ts, c, rng, hm =>
    let (c1, rng1, hm1) := ETree.create_historical t c rng hm
    createHistoricalList ts c1 rng1 hm1

end

/-- Rust `Expander::create_historical`: the utterance is built against the
conversation before any edit callback runs, then the tree is walked. -/
def Expander.create_historical (c : Conversation T M C) (rng : Rng)
    (t : ETree T M N C) : Conversation T M C × Rng × HistoricalMove T M :=
  let (u, rng1) := ETree.create_utterance c t rng
  let hm0 : HistoricalMove T M :=
    ⟨u, c.speaker, ⟨[], []⟩, ⟨[], []⟩, ⟨[], []⟩⟩
  ETree.create_historical t c rng1 hm0

/-- Rust `Expander::address_tree`: backward-chain the accepted tree, then turn it
into a historical move. -/
def address_tree (E : Expander T M N C) (fuel : Nat)
    (c : Conversation T M C) (t : ETree T M N C) (rng : Rng) :
    Res T M (HistoricalMove T M × Conversation T M C) × Rng :=
  match backward_chain E fuel c t rng with
  | (.ok t2, rng2) =>
    let (c2, rng3, hm) := Expander.create_historical c rng2 t2
    (.ok (hm, c2), rng3)
  | (.err e, rng2) => (.err e, rng2)
  | (.panicked, rng2) => (.panicked, rng2)

/-- Rust `Expander::address_dialog_move`. -/
def address_dialog_move (E : Expander T M N C) (fuel : Nat)
    (c : Conversation T M C) (dialog_move : M) (rng : Rng) :
    Res T M (HistoricalMove T M × Conversation T M C) × Rng :=
  match expand_dialog_move E fuel c dialog_move rng with
  | (.ok t, rng1) => address_tree E fuel c t rng1
  | (.err e, rng1) => (.err e, rng1)
  | (.panicked, rng1) => (.panicked, rng1)

/-- Rust `Expander::address_topic`. -/
def address_topic (E : Expander T M N C) (fuel : Nat)
    (c : Conversation T M C) (topic : T) (rng : Rng) :
    Res T M (HistoricalMove T M × Conversation T M C) × Rng :=
  match expand_topic E fuel c topic rng with
  | (.ok t, rng1) => address_tree E fuel c t rng1
  | (.err e, rng1) => (.err e, rng1)
  | (.panicked, rng1) => (.panicked, rng1)

/-- Rust `Conversation::get_speaker_state` as a read of the matching field. -/
def Conversation.get_speaker_state (c : Conversation T M C) (s : Speaker) :
    ParticipantState T M C :=
  match s with
  | .person0 => c.person0
  | .person1 => c.person1

/-- Rust `Conversation::get_my_state`. -/
def Conversation.get_my_state (c : Conversation T M C) :
    ParticipantState T M C :=
  c.get_speaker_state c.speaker

/-- Rust `Conversation::timestep`. -/
def Conversation.timestep (c : Conversation T M C) : Conversation T M C :=
  { c with person0 := c.person0.timestep, person1 := c.person1.timestep }

/-- Rust `Conversation::introduce_topic`: insert into the global introduced set
and bump the per-topic introduce counter of the current speaker. -/
def Conversation.introduce_topic (c : Conversation T M C) (t : T) :
    Conversation T M C :=
  let c1 := { c with topic_state :=
    ({ c.topic_state with introduced := insertSet c.topic_state.introduced t }) }
  if c1.speaker = .person0 then
    { c1 with person0 := ({ c1.person0 with topics :=
      (updateVal c1.person0.topics t TopicMetadata.default0
        TopicMetadata.introduce) }) }
  else
    { c1 with person1 := ({ c1.person1 with topics :=
      (updateVal c1.person1.topics t TopicMetadata.default0
        TopicMetadata.introduce) }) }

/-- Rust `Conversation::address_topic`: insert into the global addressed set and
bump the per-topic address counter of the current speaker. -/
def Conversation.mark_topic_addressed (c : Conversation T M C) (t : T) :
    Conversation T M C :=
  let c1 := { c with topic_state :=
    ({ c.topic_state with addressed := insertSet c.topic_state.addressed t }) }
  if c1.speaker = .person0 then
    { c1 with person0 := ({ c1.person0 with topics :=
      (updateVal c1.person0.topics t TopicMetadata.default0
        TopicMetadata.address) }) }
  else
    { c1 with person1 := ({ c1.person1 with topics :=
      (updateVal c1.person1.topics t TopicMetadata.default0
        TopicMetadata.address) }) }

/-- Rust `Conversation::update_for_move`: notify the goals (which are detached
while they observe the move, and none of them reads the conversation), apply
the topic deltas, merge the obligation deltas, append to history. -/
def Conversation.update_for_move (c : Conversation T M C)
    (hmove : HistoricalMove T M) : Conversation T M C :=
  let c1 := { c with goals := (c.goals.map (fun g => g.made_move hmove)) }
  let c2 := hmove.topic_state.introduced.foldl Conversation.introduce_topic c1
  let c3 := hmove.topic_state.addressed.foldl Conversation.mark_topic_addressed c2
  let c4 := { c3 with
    person0 := c3.person0.merge_historical_obligations hmove.person0_obligations,
    person1 := c3.person1.merge_historical_obligations hmove.person1_obligations }
  { c4 with history := c4.history ++ [hmove] }

/-- Rust `Conversation::get_next_speaker_topics`: the introduced-but-unaddressed
topics, shuffled when there are at least two. -/
def Conversation.get_next_speaker_topics (c : Conversation T M C)
    (rng : Rng) : List T × Rng :=
  let topics := c.topic_state.introduced.filter
    (fun t => decide (t ∉ c.topic_state.addressed))
  if 1 < topics.length then shuffle topics rng else (topics, rng)

/-- The comparator of `get_next_speaker_moves` as a relation: ascending
urgency, ties broken by descending remaining TTL. -/
def oblRel {M : Type} (a b : M × PushedObligationMetadata) : Prop :=
  a.2.urgency < b.2.urgency ∨
    (a.2.urgency = b.2.urgency ∧ b.2.time_to_live ≤ a.2.time_to_live)

instance {M : Type} : DecidableRel (@oblRel M) := fun _ _ => by
  unfold oblRel; infer_instance

instance {M : Type} : IsTotal (M × PushedObligationMetadata) oblRel where
  total a b := by
    unfold oblRel
    rcases lt_trichotomy a.2.urgency b.2.urgency with h | h | h
    · exact Or.inl (Or.inl h)
    · rcases le_total b.2.time_to_live a.2.time_to_live with h2 | h2
      · exact Or.inl (Or.inr ⟨h, h2⟩)
      · exact Or.inr (Or.inr ⟨h.symm, h2⟩)
    · exact Or.inr (Or.inl h)

instance {M : Type} : IsTrans (M × PushedObligationMetadata) oblRel where
  trans a b c hab hbc := by
    unfold oblRel at hab hbc ⊢
    rcases hab with h | ⟨he, ht⟩ <;> rcases hbc with h2 | ⟨he2, ht2⟩
    · exact Or.inl (lt_trans h h2)
    · exact Or.inl (by rw [← he2]; exact h)
    · exact Or.inl (by rw [he]; exact h2)
    · exact Or.inr ⟨he.trans he2, le_trans ht2 ht⟩

/-- The pushed obligations of the current speaker, sorted with the comparator of
`get_next_speaker_moves` (`sort_unstable_by`). -/
def sortedObligations (c : Conversation T M C) :
    List (M × PushedObligationMetadata) :=
  List.insertionSort oblRel c.get_my_state.pushed_obligations

/-- The goal-proposed stream of `get_next_speaker_moves`: the proposal of each
goal, kept when its pursuer agrees with the current speaker. -/
def goalProposalMoves (c : Conversation T M C) : List M :=
  ((c.goals.filterMap GoalState.next_step).filter
    (fun gm => gm.pursuer.agrees_with c.speaker)).map GoalMove.dialog_move

/-- Rust `Conversation::get_next_speaker_moves`: the goal proposals (shuffled when
there are at least two) followed by the sorted obligations. -/
def Conversation.get_next_speaker_moves (c : Conversation T M C)
    (rng : Rng) : List M × Rng :=
  let sorted := sortedObligations c
  let dialog_moves := goalProposalMoves c
  let (dialog_moves2, rng1) :=
    if 1 < dialog_moves.length then shuffle dialog_moves rng
    else (dialog_moves, rng)
  (dialog_moves2 ++ sorted.map Prod.fst, rng1)

/-- Rust `Frame` (goal.rs): a one-shot initializer run on a fresh conversation. -/
structure Frame (T M C : Type) where
  state : Conversation T M C → Conversation T M C

/-- Rust `DialogManager` (lib.rs). -/
structure DialogManager (T M N C : Type) where
  expander : Expander T M N C
  frames : List (Frame T M C)

/-- Rust `Conversation::new`: seed the state and run every frame in registration
order. -/
def Conversation.new (initiator : Speaker) (frames : List (Frame T M C))
    (lull_continue_chance : Bern) (person0 : C) (person1 : C) :
    Conversation T M C :=
  frames.foldl (fun c f => f.state c)
    { initiator := initiator, speaker := initiator,
      person0 := ParticipantState.new person0,
      person1 := ParticipantState.new person1,
      topic_state := ⟨[], []⟩, history := [], goals := [], done := false,
      lull_continue_chance := lull_continue_chance }

/-- Rust `DialogManager::new_conversation`. -/
def DialogManager.new_conversation (mgr : DialogManager T M N C)
    (initiator : Speaker) (lull_continue_chance : Bern)
    (person0 : C) (person1 : C) : Conversation T M C :=
  Conversation.new initiator mgr.frames lull_continue_chance person0 person1

/-- Rust `DialogManager::attempt_to_make_move`: success updates the conversation,
`NoNodesSatisfyPreconditions` becomes `Ok(false)` with the conversation
untouched, any other error propagates. -/
def attempt_to_make_move (mgr : DialogManager T M N C) (fuel : Nat)
    (c : Conversation T M C) (dialog_move : M) (rng : Rng) :
    Res T M (Bool × Conversation T M C) × Rng :=
  match address_dialog_move mgr.expander fuel c dialog_move rng with
  | (.ok (hm, c1), rng1) => (.ok (true, c1.update_for_move hm), rng1)
  | (.err .noNodesSatisfyPreconditions, rng1) => (.ok (false, c), rng1)
  | (.err e, rng1) => (.err e, rng1)
  | (.panicked, rng1) => (.panicked, rng1)

/-- Rust `DialogManager::attempt_to_address_topic` (symmetric). -/
def attempt_to_address_topic (mgr : DialogManager T M N C) (fuel : Nat)
    (c : Conversation T M C) (topic : T) (rng : Rng) :
    Res T M (Bool × Conversation T M C) × Rng :=
  match address_topic mgr.expander fuel c topic rng with
  | (.ok (hm, c1), rng1) => (.ok (true, c1.update_for_move hm), rng1)
  | (.err .noNodesSatisfyPreconditions, rng1) => (.ok (false, c), rng1)
  | (.err e, rng1) => (.err e, rng1)
  | (.panicked, rng1) => (.panicked, rng1)

/-- The topic loop of `attempt_to_speak`. -/
def tryTopics (mgr : DialogManager T M N C) (fuel : Nat) :
    List T → Conversation T M C → Rng →
    Res T M (Bool × Conversation T M C) × Rng
  | [], c, rng => (.ok (false, c), rng)
  | t :: ts, c, rng =>
    match attempt_to_address_topic mgr fuel c t rng with
    | (.ok (true, c1), rng1) => (.ok (true, c1), rng1)
    | (.ok (false, c1), rng1) => tryTopics mgr fuel ts c1 rng1
    | (.err e, rng1) => (.err e, rng1)
    | (.panicked, rng1) => (.panicked, rng1)

/-- The move loop of `attempt_to_speak` (the list it receives is already
reversed). -/
def tryMoves (mgr : DialogManager T M N C) (fuel : Nat) :
    List M → Conversation T M C → Rng →
    Res T M (Bool × Conversation T M C) × Rng
  | [], c, rng => (.ok (false, c), rng)
  | m :: ms, c, rng =>
    match attempt_to_make_move mgr fuel c m rng with
    | (.ok (true, c1), rng1) => (.ok (true, c1), rng1)
    | (.ok (false, c1), rng1) => tryMoves mgr fuel ms c1 rng1
    | (.err e, rng1) => (.err e, rng1)
    | (.panicked, rng1) => (.panicked, rng1)

/-- Rust `DialogManager::attempt_to_speak`: try every pending topic, then the
move list of the speaker consumed in reverse (`.rev()`), so pushed obligations are
attempted before goal proposals, highest urgency first. -/
def attempt_to_speak (mgr : DialogManager T M N C) (fuel : Nat)
    (c : Conversation T M C) (rng : Rng) :
    Res T M (Bool × Conversation T M C) × Rng :=
  let (topics, rng1) := c.get_next_speaker_topics rng
  match tryTopics mgr fuel topics c rng1 with
  | (.ok (true, c1), rng2) => (.ok (true, c1), rng2)
  | (.ok (false, c1), rng2) =>
    let (moves, rng3) := c1.get_next_speaker_moves rng2
    tryMoves mgr fuel moves.reverse c1 rng3
  | (.err e, rng2) => (.err e, rng2)
  | (.panicked, rng2) => (.panicked, rng2)

/-- Rust `DialogManager::step_conversation`.  The `rng` argument models the fresh
`Rng::from_entropy()` the source draws at the start of the step. -/
def step_conversation (mgr : DialogManager T M N C) (fuel : Nat)
    (c : Conversation T M C) (lull_move : M) (rng : Rng) :
    Res T M (Conversation T M C) × Rng :=
  if c.done then (.ok c, rng)
  else
    let c0 := c.timestep
    match attempt_to_speak mgr fuel c0 rng with
    | (.ok (true, c1), rng1) =>
      (.ok { c1 with speaker := c1.speaker.flip }, rng1)
    | (.ok (false, c1), rng1) =>
      let c2 := { c1 with speaker := c1.speaker.flip }
      match attempt_to_speak mgr fuel c2 rng1 with
      | (.ok (true, c3), rng3) =>
        (.ok { c3 with speaker := c3.speaker.flip }, rng3)
      | (.ok (false, c3), rng3) =>
        let (cont, rng4) := c3.lull_continue_chance.sample rng3
        if cont then
          match attempt_to_make_move mgr fuel c3 lull_move rng4 with
          | (.ok (true, c4), rng5) =>
            (.ok { c4 with speaker := c4.speaker.flip }, rng5)
          | (.ok (false, c4), rng5) =>
            let c5 := { c4 with speaker := c4.speaker.flip }
            match attempt_to_make_move mgr fuel c5 lull_move rng5 with
            | (.ok (true, c6), rng6) =>
              (.ok { c6 with speaker := c6.speaker.flip }, rng6)
            | (.ok (false, c6), rng6) => (.ok { c6 with done := true }, rng6)
            | (.err e, rng6) => (.err e, rng6)
            | (.panicked, rng6) => (.panicked, rng6)
          | (.err e, rng5) => (.err e, rng5)
          | (.panicked, rng5) => (.panicked, rng5)
        else (.ok { c3 with done := true }, rng4)
      | (.err e, rng3) => (.err e, rng3)
      | (.panicked, rng3) => (.panicked, rng3)
    | (.err e, rng1) => (.err e, rng1)
    | (.panicked, rng1) => (.panicked, rng1)

variable {α : Type}

/-- Rust `Res` observation: did the computation return `Err(NoNodesSatisfyPreconditions)`? -/
def isErrNNSP : Res T M α → Bool
  | .err .noNodesSatisfyPreconditions => true
  | _ => false

/-- Rust `Res` observation: the error value, when there is one. -/
def resErrOf (r : Res T M α × Rng) : Option (ExpanderErr T M) :=
  match r.1 with
  | .err e => some e
  | _ => none

/-- Rust `Res` observation: did the computation panic? -/
def resIsPanicked (r : Res T M α × Rng) : Bool :=
  match r.1 with
  | .panicked => true
  | _ => false

/-- Rust `Res` observation: did the computation succeed? -/
def resIsOk (r : Res T M α × Rng) : Bool :=
  match r.1 with
  | .ok _ => true
  | _ => false

/-- The root node and the child list of the root of a successfully realized tree. -/
def resShape (r : Res T M (ETree T M N C) × Rng) : Option (N × List N) :=
  match r.1 with
  | .ok t => some (t.expander_node, t.parts.map ETree.expander_node)
  | _ => none

/-- The speaker field of the conversation a successful step returns. -/
def stepSpeaker (mgr : DialogManager T M N C) (fuel : Nat)
    (c : Conversation T M C) (lull_move : M) (rng : Rng) : Option Speaker :=
  match (step_conversation mgr fuel c lull_move rng).1 with
  | .ok c2 => some c2.speaker
  | _ => none

/-- The conversation a successful step returns (falling back to the input on
failure), used to chain concrete runs. -/
def stepConvD (mgr : DialogManager T M N C) (fuel : Nat)
    (c : Conversation T M C) (lull_move : M) (rng : Rng) :
    Conversation T M C :=
  match (step_conversation mgr fuel c lull_move rng).1 with
  | .ok c2 => c2
  | _ => c

/-- A `HistoricalObligations` record holding exactly one push. -/
def singlePush (dialog_move : M) (urgency : Int) (time_to_live : Nat) :
    HistoricalObligations M :=
  HistoricalObligations.push ⟨[], []⟩ dialog_move urgency time_to_live

end Engine

section Concrete

/-- A concrete move node over `T = M = N = Nat`, `C = Unit`, with an
always-true precondition, no edit callback and a formatter returning the
empty string. -/
def mkNodeN (dialog_moves addressed_topics : List Nat)
    (parts : List (List Nat)) : MoveNode Nat Nat Nat Unit :=
  { dialog_moves := dialog_moves, addressed_topics := addressed_topics,
    precondition := ⟨none⟩, edit_historical_move := none,
    formatter := fun _ rng _ => ("", rng), parts := parts }

/-- A concrete move node with an explicit precondition. -/
def mkNodePre (dialog_moves addressed_topics : List Nat)
    (parts : List (List Nat)) (pre : Conversation Nat Nat Unit → Bool) :
    MoveNode Nat Nat Nat Unit :=
  { mkNodeN dialog_moves addressed_topics parts with precondition := ⟨some pre⟩ }

/-- A fresh concrete conversation with no frames. -/
def convN : Conversation Nat Nat Unit :=
  Conversation.new .person0 [] ⟨0, 2⟩ () ()

/-- C1 registry: the single node `0` declares dialog move `0` and topic `0`;
nothing declares move `1` or topic `1`. -/
def exC1 : Expander Nat Nat Nat Unit :=
  Expander.new [(0, mkNodeN [0] [0] [])]

/-- C2 minimal registry: child node `0` declares move `5`; parent node `1`
has the single part group `[[0]]` listing the child as its only
alternative. -/
def exC2a : Expander Nat Nat Nat Unit :=
  Expander.new [(0, mkNodeN [5] [] []), (1, mkNodeN [9] [] [[0]])]

/-- C2 richer registry: parent node `1` has two part groups
`[[0, 2], [3, 4]]`; node `0` (the child, alternative 0 of group 0) declares
move `5`. -/
def exC2b : Expander Nat Nat Nat Unit :=
  Expander.new
    [(0, mkNodeN [5] [] []), (2, mkNodeN [] [] []), (3, mkNodeN [] [] []),
      (4, mkNodeN [] [] []), (1, mkNodeN [9] [] [[0, 2], [3, 4]])]

/-- The already-expanded child tree for the C2 scenarios. -/
def treeC2 : ETree Nat Nat Nat Unit := .mk 0 (mkNodeN [5] [] []) []

/-- C3 witness registry: node `0` declares move `3` but its precondition is
always false, so realizing move `3` fails with
`NoNodesSatisfyPreconditions`. -/
def mgrC3 : DialogManager Nat Nat Nat Unit :=
  ⟨Expander.new [(0, mkNodePre [3] [] [] (fun _ => false))], []⟩

/-- C7 witness registry: node `0` declares move `3` and can only be realized
when the current speaker is person 1; a goal anyone may pursue proposes
move `3`. -/
def mgrC7 : DialogManager Nat Nat Nat Unit :=
  ⟨Expander.new
      [(0, mkNodePre [3] [] [] (fun c => decide (c.speaker = .person1)))],
    [⟨fun c => { c with goals := [.performGoalMove ⟨.any, 3⟩ false] }⟩]⟩

/-- A C7 conversation whose current speaker can realize the goal move. -/
def convC7a : Conversation Nat Nat Unit :=
  mgrC7.new_conversation .person1 ⟨0, 2⟩ () ()

/-- A C7 conversation whose current speaker cannot realize the goal move but
whose other participant can. -/
def convC7b : Conversation Nat Nat Unit :=
  mgrC7.new_conversation .person0 ⟨0, 2⟩ () ()

/-- C8 registry: node `10` declares move `5` and addresses topic `7`; the
frame seeds a goal that proposes move `5` twice. -/
def mgrC8 : DialogManager Nat Nat Nat Unit :=
  ⟨Expander.new [(10, mkNodeN [5] [7] [])],
    [⟨fun c => { c with goals := [.repeatGoalMove ⟨.any, 5⟩ 0 2] }⟩]⟩

/-- The fresh C8 conversation. -/
def convC8 : Conversation Nat Nat Unit :=
  mgrC8.new_conversation .person0 ⟨0, 2⟩ () ()

/-- The C8 conversation after one step. -/
def convC8a : Conversation Nat Nat Unit := stepConvD mgrC8 6 convC8 99 []

/-- The C8 conversation after two steps. -/
def convC8b : Conversation Nat Nat Unit := stepConvD mgrC8 6 convC8a 99 []

/-- The conversation a successful speak attempt returns (falling back to the
input on failure), used to name intermediate states in concrete runs. -/
def attemptOkConvD (mgr : DialogManager Nat Nat Nat Unit) (fuel : Nat)
    (c : Conversation Nat Nat Unit) (rng : Rng)
    (d : Conversation Nat Nat Unit) : Conversation Nat Nat Unit :=
  match (attempt_to_speak mgr fuel c rng).1 with
  | .ok (_, c1) => c1
  | _ => d

/-- C4 witness participant state: one obligation on move `7` with TTL 2. -/
def partC4 : ParticipantState Nat Nat Unit := ⟨[], [(7, ⟨1, 2, 1⟩)], ()⟩

/-- C10 witness registry: node `3` has the part groups `[[1], []]` — the
second group is empty — and node `1` is a realizable leaf. -/
def exC10 : Expander Nat Nat Nat Unit :=
  Expander.new [(1, mkNodeN [] [] []), (3, mkNodeN [6] [] [[1], []])]

/-- The C10 node with the empty part group. -/
def nodeC10 : MoveNode Nat Nat Nat Unit := mkNodeN [6] [] [[1], []]

end Concrete

section Lemmas

variable {K V α : Type} [DecidableEq K]

theorem findVal_not_mem (k : K) :
    ∀ l : List (K × V), k ∉ keysOf l → findVal l k = none := by
  intro l
  induction l with
  | nil => intro _; rfl
  | cons p rest ih =>
    obtain ⟨k2, v⟩ := p
    intro h
    simp only [keysOf, List.map_cons, List.mem_cons] at h
    push_neg at h
    simp only [findVal, if_neg h.1]
    exact ih h.2

theorem findVal_mem (k : K) (v : V) :
    ∀ l : List (K × V), findVal l k = some v → (k, v) ∈ l := by
  intro l
  induction l with
  | nil => intro h; exact absurd h (by simp [findVal])
  | cons p rest ih =>
    obtain ⟨k2, v2⟩ := p
    intro h
    simp only [findVal] at h
    by_cases hk : k = k2
    · rw [if_pos hk] at h
      obtain rfl := Option.some_injective _ h
      subst hk
      exact List.mem_cons_self _ _
    · rw [if_neg hk] at h
      exact List.mem_cons_of_mem _ (ih h)

theorem findVal_updateVal_self (k : K) (dflt : V) (f : V → V) :
    ∀ l : List (K × V),
      findVal (updateVal l k dflt f) k = some (f ((findVal l k).getD dflt)) := by
  intro l
  induction l with
  | nil => simp [updateVal, findVal]
  | cons p rest ih =>
    obtain ⟨k2, v⟩ := p
    by_cases hk : k = k2
    · simp [updateVal, findVal, hk]
    · simp [updateVal, findVal, hk, ih]

theorem cons_eraseIdx_perm (a : α) :
    ∀ (l : List α) (i : Nat), l.get? i = some a →
      (a :: l.eraseIdx i).Perm l := by
  intro l
  induction l with
  | nil => intro i h; simp [List.get?] at h
  | cons x xs ih =>
    intro i h
    match i with
    | 0 =>
      simp only [List.get?] at h
      obtain rfl := Option.some_injective _ h
      simp [List.eraseIdx]
    | j + 1 =>
      simp only [List.get?] at h
      have hp := ih j h
      show (a :: x :: xs.eraseIdx j).Perm (x :: xs)
      exact List.Perm.trans (List.Perm.swap x a _) (hp.cons x)

theorem shuffleAux_perm : ∀ (n : Nat) (l : List α) (rng : Rng),
    (shuffleAux n l rng).1.Perm l := by
  intro n
  induction n with
  | zero => intro l rng; exact List.Perm.refl l
  | succ m ih =>
    intro l rng
    simp only [shuffleAux]
    rcases hg : l.get? ((rngNext rng).1 % l.length) with _ | a
    · exact List.Perm.refl l
    · exact ((ih _ _).cons a).trans (cons_eraseIdx_perm a l _ hg)

theorem shuffle_perm (l : List α) (rng : Rng) : (shuffle l rng).1.Perm l :=
  shuffleAux_perm l.length l rng

theorem mem_insertSet [DecidableEq α] (l : List α) (a x : α) :
    x ∈ insertSet l a ↔ x ∈ l ∨ x = a := by
  unfold insertSet
  by_cases h : a ∈ l
  · rw [if_pos h]
    constructor
    · exact Or.inl
    · rintro (hx | rfl)
      · exact hx
      · exact h
  · rw [if_neg h]
    simp

theorem mem_foldl_insertSet [DecidableEq α] (x : α) :
    ∀ (xs l : List α), x ∈ xs.foldl insertSet l ↔ x ∈ l ∨ x ∈ xs := by
  intro xs
  induction xs with
  | nil => simp
  | cons y ys ih =>
    intro l
    simp only [List.foldl_cons]
    rw [ih, mem_insertSet]
    constructor
    · rintro ((h | rfl) | h)
      · exact Or.inl h
      · exact Or.inr (List.mem_cons_self _ _)
      · exact Or.inr (List.mem_cons_of_mem _ h)
    · rintro (h | h)
      · exact Or.inl (Or.inl h)
      · rcases List.mem_cons.mp h with rfl | h2
        · exact Or.inl (Or.inr rfl)
        · exact Or.inr h2

theorem mem_extendSet [DecidableEq α] (l xs : List α) (x : α) :
    x ∈ extendSet l xs ↔ x ∈ l ∨ x ∈ xs :=
  mem_foldl_insertSet x xs l

end Lemmas

section ObligationLemmas

variable {T M C : Type}

theorem stepPO_cons_expired (k2 : M) (v : PushedObligationMetadata)
    (rest : List (M × PushedObligationMetadata))
    (hv : v.time_to_live = 0) :
    stepPushedObligations ((k2, v) :: rest) = stepPushedObligations rest := by
  simp [stepPushedObligations, List.filterMap_cons,
    PushedObligationMetadata.timestep, hv]

theorem stepPO_cons_alive (k2 : M) (v : PushedObligationMetadata)
    (rest : List (M × PushedObligationMetadata))
    (hv : ¬v.time_to_live = 0) :
    stepPushedObligations ((k2, v) :: rest) =
      (k2, { v with time_to_live := v.time_to_live - 1 }) ::
        stepPushedObligations rest := by
  simp [stepPushedObligations, List.filterMap_cons,
    PushedObligationMetadata.timestep, hv]

theorem keysOf_stepPO_sublist :
    ∀ l : List (M × PushedObligationMetadata),
      (keysOf (stepPushedObligations l)).Sublist (keysOf l) := by
  intro l
  induction l with
  | nil => simp [stepPushedObligations, keysOf]
  | cons p rest ih =>
    obtain ⟨k2, v⟩ := p
    by_cases hv : v.time_to_live = 0
    · rw [stepPO_cons_expired k2 v rest hv]
      exact ih.trans (List.sublist_cons_self _ _)
    · rw [stepPO_cons_alive k2 v rest hv]
      simp only [keysOf, List.map_cons]
      exact List.Sublist.cons₂ _ ih

theorem findVal_stepPO [DecidableEq M] (k : M) :
    ∀ l : List (M × PushedObligationMetadata), (keysOf l).Nodup →
      findVal (stepPushedObligations l) k =
        (findVal l k).bind (fun m =>
          if m.time_to_live = 0 then none
          else some { m with time_to_live := m.time_to_live - 1 }) := by
  intro l
  induction l with
  | nil => simp [stepPushedObligations, findVal]
  | cons p rest ih =>
    obtain ⟨k2, v⟩ := p
    intro hn
    simp only [keysOf, List.map_cons, List.nodup_cons] at hn
    by_cases hv : v.time_to_live = 0
    · rw [stepPO_cons_expired k2 v rest hv]
      by_cases hk : k = k2
      · subst hk
        have hnone : findVal (stepPushedObligations rest) k = none := by
          apply findVal_not_mem
          intro hmem
          exact hn.1 ((keysOf_stepPO_sublist rest).mem hmem)
        rw [hnone]
        simp [findVal, hv]
      · rw [ih hn.2]
        simp [findVal, hk]
    · rw [stepPO_cons_alive k2 v rest hv]
      by_cases hk : k = k2
      · subst hk
        simp [findVal, hv]
      · simp only [findVal, if_neg hk]
        exact ih hn.2

theorem nodup_keysOf_stepPO (l : List (M × PushedObligationMetadata))
    (hn : (keysOf l).Nodup) : (keysOf (stepPushedObligations l)).Nodup :=
  hn.sublist (keysOf_stepPO_sublist l)

theorem ttl_persistence [DecidableEq M] :
    ∀ (n : Nat) (p : ParticipantState T M C) (dm : M)
      (meta : PushedObligationMetadata),
      findVal p.pushed_obligations dm = some meta →
      meta.time_to_live = n →
      (keysOf p.pushed_obligations).Nodup →
      (findVal ((ParticipantState.timestep)^[n] p).pushed_obligations dm).isSome
          = true ∧
      findVal ((ParticipantState.timestep)^[n + 1] p).pushed_obligations dm
          = none := by
  intro n
  induction n with
  | zero =>
    intro p dm meta hf ht hn
    constructor
    · simp [Function.iterate_zero_apply, hf]
    · rw [show (ParticipantState.timestep)^[0 + 1] p
        = ParticipantState.timestep p from by
          rw [Function.iterate_one]]
      rw [show (ParticipantState.timestep p).pushed_obligations
        = stepPushedObligations p.pushed_obligations from rfl]
      rw [findVal_stepPO dm _ hn, hf]
      simp [ht]
  | succ j ih =>
    intro p dm meta hf ht hn
    have hne : ¬meta.time_to_live = 0 := by omega
    have hstep : findVal (ParticipantState.timestep p).pushed_obligations dm
        = some { meta with time_to_live := meta.time_to_live - 1 } := by
      rw [show (ParticipantState.timestep p).pushed_obligations
        = stepPushedObligations p.pushed_obligations from rfl]
      rw [findVal_stepPO dm _ hn, hf]
      simp [hne]
    have hn2 : (keysOf (ParticipantState.timestep p).pushed_obligations).Nodup :=
      nodup_keysOf_stepPO _ hn
    have ht2 : ({ meta with time_to_live := meta.time_to_live - 1 }
        : PushedObligationMetadata).time_to_live = j := by
      simp [ht]
    have hrec := ih (ParticipantState.timestep p) dm _ hstep ht2 hn2
    constructor
    · rw [Function.iterate_succ_apply]
      exact hrec.1
    · rw [show j + 1 + 1 = (j + 1) + 1 from rfl, Function.iterate_succ_apply]
      exact hrec.2

end ObligationLemmas

section ClaimC4C5C9

/-- C4: a single obligation timestep expires the obligation (signalling
removal without a further decrement) exactly when its remaining
`time_to_live` is 0, and otherwise decrements the TTL by 1 and keeps it;
consequently an obligation whose metadata has TTL `n` and that is never
re-pushed or addressed is still in the map of the owning participant after `n`
participant timesteps and gone after `n + 1`. -/
theorem c4_obligation_ttl_expiry {T M C : Type} [DecidableEq M] :
    (∀ m : PushedObligationMetadata,
      (m.timestep.2 = true ↔ m.time_to_live = 0) ∧
      (m.time_to_live = 0 → m.timestep.1 = m) ∧
      (0 < m.time_to_live →
        m.timestep = ({ m with time_to_live := m.time_to_live - 1 }, false))) ∧
    (∀ (p : ParticipantState T M C) (dm : M)
        (meta : PushedObligationMetadata) (n : Nat),
      findVal p.pushed_obligations dm = some meta →
      meta.time_to_live = n →
      (keysOf p.pushed_obligations).Nodup →
      (findVal ((ParticipantState.timestep)^[n] p).pushed_obligations dm).isSome
          = true ∧
      findVal ((ParticipantState.timestep)^[n + 1] p).pushed_obligations dm
          = none) := by
  constructor
  · intro m
    by_cases h : m.time_to_live = 0
    · simp [PushedObligationMetadata.timestep, h]
    · constructor
      · simp [PushedObligationMetadata.timestep, h]
      · constructor
        · intro h0; exact absurd h0 h
        · intro _; simp [PushedObligationMetadata.timestep, h]
  · intro p dm meta n hf ht hn
    exact ttl_persistence n p dm meta hf ht hn

/-- Witness for C4 at a concrete participant state: an obligation pushed with
TTL 2 expires on the third timestep, and the single-obligation step behaves
as stated at TTL 0 and TTL 5. -/
theorem c4_witness :
    ((⟨3, 0, 1⟩ : PushedObligationMetadata).timestep.2 = true) ∧
    ((⟨3, 5, 1⟩ : PushedObligationMetadata).timestep
      = (⟨3, 4, 1⟩, false)) ∧
    ((findVal (((ParticipantState.timestep)^[2] partC4).pushed_obligations)
        7).isSome = true) ∧
    (findVal (((ParticipantState.timestep)^[3] partC4).pushed_obligations)
        7 = none) := by
  have h := c4_obligation_ttl_expiry (T := Nat) (M := Nat) (C := Unit)
  refine ⟨?_, ?_, ?_, ?_⟩
  · exact (h.1 ⟨3, 0, 1⟩).1.mpr (by decide)
  · exact (h.1 ⟨3, 5, 1⟩).2.2 (by decide)
  · exact (h.2 partC4 7 ⟨1, 2, 1⟩ 2 (by decide) (by decide)
      (by decide)).1
  · exact (h.2 partC4 7 ⟨1, 2, 1⟩ 2 (by decide) (by decide)
      (by decide)).2

theorem push_pushed {M : Type} [DecidableEq M] (h : HistoricalObligations M)
    (dm : M) (u : Int) (t : Nat) :
    (h.push dm u t).pushed = updateVal h.pushed dm ⟨u, t, 0⟩
      (fun o => ⟨max o.urgency u, max o.time_to_live t, o.times_pushed + 1⟩)
    := rfl

theorem push_addressed {M : Type} [DecidableEq M]
    (h : HistoricalObligations M) (dm : M) (u : Int) (t : Nat) :
    (h.push dm u t).addressed = h.addressed := rfl

theorem merge_pushed {T M C : Type} [DecidableEq M]
    (p : ParticipantState T M C) (h : HistoricalObligations M) :
    (p.merge_historical_obligations h).pushed_obligations =
      h.pushed.foldl
        (fun m kv => updateVal m kv.1 ⟨i32Min, 0, 0⟩
          (fun o => ⟨max o.urgency kv.2.urgency,
            max o.time_to_live kv.2.time_to_live,
            o.times_pushed + kv.2.times_pushed⟩))
        (h.addressed.foldl eraseKey p.pushed_obligations) := rfl

/-- C5: an obligation pushed twice before being addressed ends up with the
max of the two urgencies, the max of the two TTLs and a `times_pushed` of 2 —
both when the two pushes land in the same historical record and when two
single-push historical records are merged one after the other into a
participant map that does not yet hold the obligation. -/
theorem c5_double_push_merge {T M C : Type} [DecidableEq M] :
    (∀ (h : HistoricalObligations M) (dm : M) (u1 u2 : Int) (t1 t2 : Nat),
      findVal h.pushed dm = none →
      findVal ((h.push dm u1 t1).push dm u2 t2).pushed dm =
        some ⟨max u1 u2, max t1 t2, 2⟩) ∧
    (∀ (p : ParticipantState T M C) (dm : M) (u1 u2 : Int) (t1 t2 : Nat),
      findVal p.pushed_obligations dm = none →
      i32Min ≤ u1 → i32Min ≤ u2 →
      findVal (ParticipantState.merge_historical_obligations
          (ParticipantState.merge_historical_obligations p
            (singlePush dm u1 t1))
          (singlePush dm u2 t2)).pushed_obligations dm =
        some ⟨max u1 u2, max t1 t2, 2⟩) := by
  constructor
  · intro h dm u1 u2 t1 t2 hf
    rw [push_pushed, push_pushed, findVal_updateVal_self,
      findVal_updateVal_self, hf]
    simp [max_self]
  · intro p dm u1 u2 t1 t2 hf hu1 _
    rw [merge_pushed, merge_pushed]
    simp only [singlePush, push_addressed, push_pushed, updateVal,
      List.foldl_nil, List.foldl_cons]
    rw [findVal_updateVal_self, findVal_updateVal_self, hf]
    simp [max_self, max_eq_right hu1, Nat.zero_max]

/-- Witness for C5 at concrete pushes (urgencies 3 and -1, TTLs 2 and 5). -/
theorem c5_witness :
    findVal ((HistoricalObligations.push
        (HistoricalObligations.push (⟨[], []⟩ : HistoricalObligations Nat)
          9 3 2) 9 (-1) 5).pushed) 9 = some ⟨3, 5, 2⟩ ∧
    findVal (ParticipantState.merge_historical_obligations
        (ParticipantState.merge_historical_obligations
          (ParticipantState.new () : ParticipantState Nat Nat Unit)
          (singlePush 9 3 2))
        (singlePush 9 (-1) 5)).pushed_obligations 9 = some ⟨3, 5, 2⟩ := by
  have h := c5_double_push_merge (T := Nat) (M := Nat) (C := Unit)
  constructor
  · have h2 := h.1 ⟨[], []⟩ 9 3 (-1) 2 5 (by decide)
    simpa using h2
  · have h2 := h.2 (ParticipantState.new ()) 9 3 (-1) 2 5 (by decide)
      (by decide) (by decide)
    simpa using h2

/-- C9: when the current last entry of a `GoalEagerSequence` is satisfied by
the observed historical move (its pursuer agreeing with the mover), the whole
remaining sequence is cleared: the goal is immediately satisfied and proposes
nothing further. -/
theorem c9_eager_sequence_short_circuit {T M : Type} [DecidableEq M] :
    ∀ (s : List (GoalMove M)) (hm : HistoricalMove T M) (gm : GoalMove M),
      s.getLast? = some gm →
      gm.pursuer.agrees_with hm.speaker = true →
      hm.was_move_satisfied gm.dialog_move = true →
      GoalState.made_move (GoalState.goalEagerSequence s) hm
          = GoalState.goalEagerSequence [] ∧
      (GoalState.made_move (GoalState.goalEagerSequence s) hm).is_satisfied
          = true ∧
      (GoalState.made_move (GoalState.goalEagerSequence s) hm).next_step
          = none := by
  intro s hm gm hlast hagree hsat
  have hmm : GoalState.made_move (GoalState.goalEagerSequence s) hm
      = GoalState.goalEagerSequence [] := by
    simp [GoalState.made_move, hlast, hagree, hsat]
  refine ⟨hmm, ?_, ?_⟩
  · rw [hmm]; rfl
  · rw [hmm]; rfl

/-- Witness for C9: the two-item sequence `[(person0, move 1),
(person1, move 2)]` is cleared as soon as person 1 performs move 2, with
move 1 still pending. -/
theorem c9_witness :
    GoalState.made_move
        (GoalState.goalEagerSequence
          [⟨.speaker .person0, 1⟩, ⟨.speaker .person1, 2⟩])
        (⟨"", .person1, ⟨[], []⟩, ⟨[], [2]⟩, ⟨[], []⟩⟩ : HistoricalMove Nat Nat)
      = GoalState.goalEagerSequence [] ∧
    GoalState.next_step (GoalState.made_move
        (GoalState.goalEagerSequence
          [⟨.speaker .person0, 1⟩, ⟨.speaker .person1, 2⟩])
        (⟨"", .person1, ⟨[], []⟩, ⟨[], [2]⟩, ⟨[], []⟩⟩ : HistoricalMove Nat Nat))
      = none := by
  have h := c9_eager_sequence_short_circuit
    [⟨.speaker .person0, 1⟩, ⟨.speaker .person1, 2⟩]
    (⟨"", .person1, ⟨[], []⟩, ⟨[], [2]⟩, ⟨[], []⟩⟩ : HistoricalMove Nat Nat)
    ⟨.speaker .person1, 2⟩ (by decide) (by decide) (by decide)
  exact ⟨h.1, h.2.2⟩

end ClaimC4C5C9

section ClaimC1C2

/-- C1 (code bug): a dialog move (resp. topic) that no registered node
declares has no entry at all in the `addressing_move` (resp.
`addressing_topic`) index that `build` maintains, so
`address_dialog_move`/`address_topic` panic on the `HashMap` index lookup
instead of returning `NoExpanderForMove`/`NoExpanderForTopic`: in the
registry `exC1` the single node declares move 0 and topic 0, and realizing
move 1 or topic 1 panics. -/
theorem c1_missing_handler_lookup_panics :
    findVal exC1.addressing_move 1 = none ∧
    findVal exC1.addressing_topic 1 = none ∧
    resIsPanicked (address_dialog_move exC1 4 convN 1 []) = true ∧
    resIsPanicked (address_topic exC1 4 convN 1 []) = true := by
  refine ⟨by decide, by decide, by decide, by decide⟩

/-- C2 (code bug): `backward_chain` passes the parent part-group index `k` to
`forward_chain` as `skip`, but `forward_chain` filters out *alternative*
index `k` inside every group.  In the minimal registry `exC2a` (parent part
groups `[[0]]`, child `0` at group 0), realizing the declared move of the child therefore
fails with `NoNodesSatisfyPreconditions` instead of producing the wrapped
tree the claim describes; in the richer registry `exC2b` (parent part groups
`[[0, 2], [3, 4]]`) the wrap succeeds but the parent ends up with three
realized subtrees `[0, 2, 4]` for its two part groups — group 0 is realized
again (as node 2) alongside the inserted child — instead of one subtree per
group. -/
theorem c2_backward_chain_skip_misuse :
    resErrOf (address_dialog_move exC2a 6 convN 5 [])
      = some .noNodesSatisfyPreconditions ∧
    resShape (backward_chain exC2b 6 convN treeC2 []) = some (1, [0, 2, 4]) := by
  refine ⟨by decide, by decide⟩

end ClaimC1C2

section ClaimC8

/-- Counterexample to C8: starting from the fresh conversation `convC8`
(built by `new_conversation`, whose frame seeds a repeat-twice goal for
move 5, which node 10 realizes while addressing topic 7), two
`step_conversation` calls both succeed; the move merged by the second step
has topic 7 in its addressed delta even though topic 7 was already addressed
globally before that merge (it is in `convC8a.topic_state.addressed`). -/
theorem c8_counterexample :
    resIsOk (step_conversation mgrC8 6 convC8 99 []) = true ∧
    resIsOk (step_conversation mgrC8 6 convC8a 99 []) = true ∧
    (7 : Nat) ∈ convC8a.topic_state.addressed ∧
    (convC8b.history.get? 1).map
      (fun hm => decide ((7 : Nat) ∈ hm.topic_state.addressed)) = some true := by
  refine ⟨by decide, by decide, by decide, by decide⟩

theorem introduce_topic_introduced {T M C : Type} [DecidableEq T]
    (c : Conversation T M C) (t : T) :
    (c.introduce_topic t).topic_state.introduced =
      insertSet c.topic_state.introduced t := by
  simp only [Conversation.introduce_topic]
  split <;> rfl

theorem introduce_topic_addressed {T M C : Type} [DecidableEq T]
    (c : Conversation T M C) (t : T) :
    (c.introduce_topic t).topic_state.addressed =
      c.topic_state.addressed := by
  simp only [Conversation.introduce_topic]
  split <;> rfl

theorem mark_topic_addressed_addressed {T M C : Type} [DecidableEq T]
    (c : Conversation T M C) (t : T) :
    (c.mark_topic_addressed t).topic_state.addressed =
      insertSet c.topic_state.addressed t := by
  simp only [Conversation.mark_topic_addressed]
  split <;> rfl

theorem mark_topic_addressed_introduced {T M C : Type} [DecidableEq T]
    (c : Conversation T M C) (t : T) :
    (c.mark_topic_addressed t).topic_state.introduced =
      c.topic_state.introduced := by
  simp only [Conversation.mark_topic_addressed]
  split <;> rfl

theorem foldl_introduce_introduced {T M C : Type} [DecidableEq T] :
    ∀ (xs : List T) (c : Conversation T M C),
      (xs.foldl Conversation.introduce_topic c).topic_state.introduced =
        xs.foldl insertSet c.topic_state.introduced := by
  intro xs
  induction xs with
  | nil => intro c; rfl
  | cons x rest ih =>
    intro c
    rw [List.foldl_cons, List.foldl_cons, ih, introduce_topic_introduced]

theorem foldl_introduce_addressed {T M C : Type} [DecidableEq T] :
    ∀ (xs : List T) (c : Conversation T M C),
      (xs.foldl Conversation.introduce_topic c).topic_state.addressed =
        c.topic_state.addressed := by
  intro xs
  induction xs with
  | nil => intro c; rfl
  | cons x rest ih =>
    intro c
    rw [List.foldl_cons, ih, introduce_topic_addressed]

theorem foldl_mark_addressed {T M C : Type} [DecidableEq T] :
    ∀ (xs : List T) (c : Conversation T M C),
      (xs.foldl Conversation.mark_topic_addressed c).topic_state.addressed =
        xs.foldl insertSet c.topic_state.addressed := by
  intro xs
  induction xs with
  | nil => intro c; rfl
  | cons x rest ih =>
    intro c
    rw [List.foldl_cons, List.foldl_cons, ih, mark_topic_addressed_addressed]

theorem foldl_mark_introduced {T M C : Type} [DecidableEq T] :
    ∀ (xs : List T) (c : Conversation T M C),
      (xs.foldl Conversation.mark_topic_addressed c).topic_state.introduced =
        c.topic_state.introduced := by
  intro xs
  induction xs with
  | nil => intro c; rfl
  | cons x rest ih =>
    intro c
    rw [List.foldl_cons, ih, mark_topic_addressed_introduced]

theorem update_for_move_introduced {T M C : Type} [DecidableEq T]
    [DecidableEq M] (c : Conversation T M C) (hm : HistoricalMove T M) :
    (c.update_for_move hm).topic_state.introduced =
      hm.topic_state.introduced.foldl insertSet c.topic_state.introduced := by
  have h0 : (c.update_for_move hm).topic_state =
      (hm.topic_state.addressed.foldl Conversation.mark_topic_addressed
        (hm.topic_state.introduced.foldl Conversation.introduce_topic
          { c with goals := (c.goals.map (fun g => g.made_move hm)) })).topic_state
    := rfl
  rw [h0, foldl_mark_introduced, foldl_introduce_introduced]

theorem update_for_move_addressed {T M C : Type} [DecidableEq T]
    [DecidableEq M] (c : Conversation T M C) (hm : HistoricalMove T M) :
    (c.update_for_move hm).topic_state.addressed =
      hm.topic_state.addressed.foldl insertSet c.topic_state.addressed := by
  have h0 : (c.update_for_move hm).topic_state =
      (hm.topic_state.addressed.foldl Conversation.mark_topic_addressed
        (hm.topic_state.introduced.foldl Conversation.introduce_topic
          { c with goals := (c.goals.map (fun g => g.made_move hm)) })).topic_state
    := rfl
  rw [h0, foldl_mark_addressed, foldl_introduce_addressed]

theorem mem_next_speaker_topics {T M C : Type} [DecidableEq T]
    (c : Conversation T M C) (rng : Rng) (t : T) :
    t ∈ (c.get_next_speaker_topics rng).1 ↔
      t ∈ c.topic_state.introduced ∧ t ∉ c.topic_state.addressed := by
  unfold Conversation.get_next_speaker_topics
  by_cases h : 1 < (c.topic_state.introduced.filter
      (fun t2 => decide (t2 ∉ c.topic_state.addressed))).length
  · rw [if_pos h]
    rw [(shuffle_perm _ rng).mem_iff]
    simp [List.mem_filter]
  · rw [if_neg h]
    simp [List.mem_filter]

/-- C8 amended: merging a historical move unconditionally unions its topic
deltas into the global topic state (no freshness is checked: an
already-introduced or already-addressed topic in a delta is simply absorbed);
the only freshness guarantee is that the topic candidates of a step are
exactly the introduced-but-not-yet-addressed topics. -/
theorem c8_amended {T M C : Type} [DecidableEq T] [DecidableEq M] :
    ∀ (c : Conversation T M C) (hm : HistoricalMove T M) (t : T) (rng : Rng),
      (t ∈ (c.update_for_move hm).topic_state.introduced ↔
        t ∈ c.topic_state.introduced ∨ t ∈ hm.topic_state.introduced) ∧
      (t ∈ (c.update_for_move hm).topic_state.addressed ↔
        t ∈ c.topic_state.addressed ∨ t ∈ hm.topic_state.addressed) ∧
      (t ∈ (c.get_next_speaker_topics rng).1 ↔
        t ∈ c.topic_state.introduced ∧ t ∉ c.topic_state.addressed) := by
  intro c hm t rng
  refine ⟨?_, ?_, mem_next_speaker_topics c rng t⟩
  · rw [update_for_move_introduced, mem_foldl_insertSet]
  · rw [update_for_move_addressed, mem_foldl_insertSet]

end ClaimC8

section ClaimC7

theorem speaker_flip_flip (s : Speaker) : s.flip.flip = s := by
  cases s <;> rfl

/-- C7: in a step on a not-done conversation, if the speaker who was current
at the start of the step spoke (first `attempt_to_speak` succeeded, the
realization callbacks leaving the speaker field unchanged), the speaker field
afterwards names the other participant; if the original current speaker
failed and the other participant spoke (second `attempt_to_speak` succeeded
after the flip), the speaker field afterwards reverts to the original current
speaker. -/
theorem c7_speaker_flip {T M N C : Type} [DecidableEq T] [DecidableEq M]
    [DecidableEq N] :
    ∀ (mgr : DialogManager T M N C) (fuel : Nat) (c : Conversation T M C)
      (lull_move : M) (rng : Rng),
      c.done = false →
      (∀ (c1 : Conversation T M C) (rng1 : Rng),
        attempt_to_speak mgr fuel c.timestep rng = (.ok (true, c1), rng1) →
        c1.speaker = c.speaker →
        stepSpeaker mgr fuel c lull_move rng = some c.speaker.flip) ∧
      (∀ (c1 c2 : Conversation T M C) (rng1 rng2 : Rng),
        attempt_to_speak mgr fuel c.timestep rng = (.ok (false, c1), rng1) →
        attempt_to_speak mgr fuel { c1 with speaker := c1.speaker.flip } rng1
          = (.ok (true, c2), rng2) →
        c2.speaker = c.speaker.flip →
        stepSpeaker mgr fuel c lull_move rng = some c.speaker) := by
  intro mgr fuel c lull_move rng hdone
  constructor
  · intro c1 rng1 h1 hsp
    simp only [stepSpeaker, step_conversation, hdone, Bool.false_eq_true,
      if_false, h1, hsp]
  · intro c1 c2 rng1 rng2 h1 h2 hsp
    simp only [stepSpeaker, step_conversation, hdone, Bool.false_eq_true,
      if_false, h1, h2, hsp, speaker_flip_flip]

/-- Witness for C7: with registry `mgrC7` (whose node for the goal move can
only be realized by person 1), a step from `convC7a` (speaker person 1, who
speaks) flips the speaker, while a step from `convC7b` (speaker person 0, who
cannot speak; person 1 speaks instead) reverts the speaker to person 0. -/
theorem c7_witness :
    stepSpeaker mgrC7 4 convC7a 99 [] = some convC7a.speaker.flip ∧
    stepSpeaker mgrC7 4 convC7b 99 [] = some convC7b.speaker := by
  constructor
  · exact (c7_speaker_flip mgrC7 4 convC7a 99 [] (by decide)).1
      (attemptOkConvD mgrC7 4 convC7a.timestep [] convC7a)
      (attempt_to_speak mgrC7 4 convC7a.timestep []).2
      (by decide) (by decide)
  · exact (c7_speaker_flip mgrC7 4 convC7b 99 [] (by decide)).2
      (attemptOkConvD mgrC7 4 convC7b.timestep [] convC7b)
      (attemptOkConvD mgrC7 4
        { attemptOkConvD mgrC7 4 convC7b.timestep [] convC7b with
          speaker := (attemptOkConvD mgrC7 4 convC7b.timestep []
            convC7b).speaker.flip }
        (attempt_to_speak mgrC7 4 convC7b.timestep []).2 convC7b)
      (attempt_to_speak mgrC7 4 convC7b.timestep []).2
      (attempt_to_speak mgrC7 4
        { attemptOkConvD mgrC7 4 convC7b.timestep [] convC7b with
          speaker := (attemptOkConvD mgrC7 4 convC7b.timestep []
            convC7b).speaker.flip }
        (attempt_to_speak mgrC7 4 convC7b.timestep []).2).2
      (by decide) (by decide) (by decide)

end ClaimC7

section ClaimC3

variable {T M N C : Type} [DecidableEq T] [DecidableEq M] [DecidableEq N]

theorem isErrNNSP_err_congr {T M α β : Type} (e : ExpanderErr T M) :
    isErrNNSP (Res.err e : Res T M α) = isErrNNSP (Res.err e : Res T M β) := by
  cases e <;> rfl

theorem attempt_move_not_nnsp (mgr : DialogManager T M N C) (fuel : Nat)
    (c : Conversation T M C) (dm : M) (rng : Rng) :
    isErrNNSP (attempt_to_make_move mgr fuel c dm rng).1 = false := by
  unfold attempt_to_make_move
  rcases h : address_dialog_move mgr.expander fuel c dm rng with ⟨r, rng1⟩
  match r with
  | .ok (hm, c1) => rfl
  | .err (.noExpanderForMove dm2) => rfl
  | .err (.noExpanderForTopic t2) => rfl
  | .err .noNodesSatisfyPreconditions => rfl
  | .panicked => rfl

theorem attempt_topic_not_nnsp (mgr : DialogManager T M N C) (fuel : Nat)
    (c : Conversation T M C) (t : T) (rng : Rng) :
    isErrNNSP (attempt_to_address_topic mgr fuel c t rng).1 = false := by
  unfold attempt_to_address_topic
  rcases h : address_topic mgr.expander fuel c t rng with ⟨r, rng1⟩
  match r with
  | .ok (hm, c1) => rfl
  | .err (.noExpanderForMove dm2) => rfl
  | .err (.noExpanderForTopic t2) => rfl
  | .err .noNodesSatisfyPreconditions => rfl
  | .panicked => rfl

theorem tryMoves_not_nnsp (mgr : DialogManager T M N C) (fuel : Nat) :
    ∀ (ms : List M) (c : Conversation T M C) (rng : Rng),
      isErrNNSP (tryMoves mgr fuel ms c rng).1 = false := by
  intro ms
  induction ms with
  | nil => intro c rng; rfl
  | cons m rest ih =>
    intro c rng
    have ha := attempt_move_not_nnsp mgr fuel c m rng
    unfold tryMoves
    rcases h : attempt_to_make_move mgr fuel c m rng with ⟨r, rng1⟩
    rw [h] at ha
    match r with
    | .ok (true, c1) => rfl
    | .ok (false, c1) => exact ih c1 rng1
    | .err e => exact ha
    | .panicked => rfl

theorem tryTopics_not_nnsp (mgr : DialogManager T M N C) (fuel : Nat) :
    ∀ (ts : List T) (c : Conversation T M C) (rng : Rng),
      isErrNNSP (tryTopics mgr fuel ts c rng).1 = false := by
  intro ts
  induction ts with
  | nil => intro c rng; rfl
  | cons t rest ih =>
    intro c rng
    have ha := attempt_topic_not_nnsp mgr fuel c t rng
    unfold tryTopics
    rcases h : attempt_to_address_topic mgr fuel c t rng with ⟨r, rng1⟩
    rw [h] at ha
    match r with
    | .ok (true, c1) => rfl
    | .ok (false, c1) => exact ih c1 rng1
    | .err e => exact ha
    | .panicked => rfl

theorem attempt_speak_not_nnsp (mgr : DialogManager T M N C) (fuel : Nat)
    (c : Conversation T M C) (rng : Rng) :
    isErrNNSP (attempt_to_speak mgr fuel c rng).1 = false := by
  unfold attempt_to_speak
  rcases hg : c.get_next_speaker_topics rng with ⟨topics, rng1⟩
  have ht := tryTopics_not_nnsp mgr fuel topics c rng1
  rcases h : tryTopics mgr fuel topics c rng1 with ⟨r, rng2⟩
  rw [h] at ht
  simp only [h]
  match r with
  | .ok (true, c1) => rfl
  | .ok (false, c1) =>
    rcases hm : c1.get_next_speaker_moves rng2 with ⟨moves, rng3⟩
    simp only [hm]
    exact tryMoves_not_nnsp mgr fuel moves.reverse c1 rng3
  | .err e => exact ht
  | .panicked => rfl

/-- C3: a conversation step never returns
`Err(NoNodesSatisfyPreconditions)` — every realization attempt that fails
with `NoNodesSatisfyPreconditions` is absorbed as `Ok(false)` ("this speaker
cannot make that move/topic right now") with the conversation untouched, so
the step tries something else; any error value a step does return therefore
comes from the missing-handler branch, never from failed preconditions. -/
theorem c3_step_never_propagates_nnsp :
    (∀ (mgr : DialogManager T M N C) (fuel : Nat) (c : Conversation T M C)
        (lull_move : M) (rng : Rng),
      isErrNNSP (step_conversation mgr fuel c lull_move rng).1 = false) ∧
    (∀ (mgr : DialogManager T M N C) (fuel : Nat) (c : Conversation T M C)
        (dialog_move : M) (rng : Rng),
      (address_dialog_move mgr.expander fuel c dialog_move rng).1 =
          .err .noNodesSatisfyPreconditions →
      attempt_to_make_move mgr fuel c dialog_move rng =
        (.ok (false, c),
          (address_dialog_move mgr.expander fuel c dialog_move rng).2)) ∧
    (∀ (mgr : DialogManager T M N C) (fuel : Nat) (c : Conversation T M C)
        (topic : T) (rng : Rng),
      (address_topic mgr.expander fuel c topic rng).1 =
          .err .noNodesSatisfyPreconditions →
      attempt_to_address_topic mgr fuel c topic rng =
        (.ok (false, c), (address_topic mgr.expander fuel c topic rng).2)) := by
  refine ⟨?_, ?_, ?_⟩
  · intro mgr fuel c lull_move rng
    by_cases hd : c.done
    · simp [step_conversation, hd, isErrNNSP]
    · rw [step_conversation, if_neg hd]
      have h1n := attempt_speak_not_nnsp mgr fuel c.timestep rng
      rcases h1 : attempt_to_speak mgr fuel c.timestep rng with ⟨r1, rng1⟩
      rw [h1] at h1n
      simp only [h1]
      match r1 with
      | .ok (true, c1) => rfl
      | .err e => dsimp only; exact (isErrNNSP_err_congr e).trans h1n
      | .panicked => rfl
      | .ok (false, c1) =>
        dsimp only
        have h2n := attempt_speak_not_nnsp mgr fuel
          { c1 with speaker := c1.speaker.flip } rng1
        rcases h2 : attempt_to_speak mgr fuel
            { c1 with speaker := c1.speaker.flip } rng1 with ⟨r2, rng2⟩
        rw [h2] at h2n
        match r2 with
        | .ok (true, c2) => rfl
        | .err e => dsimp only; exact (isErrNNSP_err_congr e).trans h2n
        | .panicked => rfl
        | .ok (false, c2) =>
          dsimp only
          rcases hs : c2.lull_continue_chance.sample rng2 with ⟨cont, rng3⟩
          match cont with
          | false => rfl
          | true =>
            dsimp only
            rw [if_pos rfl]
            have h3n := attempt_move_not_nnsp mgr fuel c2 lull_move rng3
            rcases h3 : attempt_to_make_move mgr fuel c2 lull_move rng3
              with ⟨r3, rng4⟩
            rw [h3] at h3n
            match r3 with
            | .ok (true, c3) => rfl
            | .err e => dsimp only; exact (isErrNNSP_err_congr e).trans h3n
            | .panicked => rfl
            | .ok (false, c3) =>
              dsimp only
              have h4n := attempt_move_not_nnsp mgr fuel
                { c3 with speaker := c3.speaker.flip } lull_move rng4
              rcases h4 : attempt_to_make_move mgr fuel
                  { c3 with speaker := c3.speaker.flip } lull_move rng4
                with ⟨r4, rng5⟩
              rw [h4] at h4n
              match r4 with
              | .ok (true, c4) => rfl
              | .ok (false, c4) => rfl
              | .err e => dsimp only; exact (isErrNNSP_err_congr e).trans h4n
              | .panicked => rfl
  · intro mgr fuel c dialog_move rng h
    unfold attempt_to_make_move
    rcases hh : address_dialog_move mgr.expander fuel c dialog_move rng
      with ⟨r, rng1⟩
    rw [hh] at h
    have hr : r = .err .noNodesSatisfyPreconditions := h
    subst hr
    rfl
  · intro mgr fuel c topic rng h
    unfold attempt_to_address_topic
    rcases hh : address_topic mgr.expander fuel c topic rng with ⟨r, rng1⟩
    rw [hh] at h
    have hr : r = .err .noNodesSatisfyPreconditions := h
    subst hr
    rfl

/-- Witness for C3: in the registry `mgrC3` the node for move 3 has an
always-false precondition, so realizing move 3 fails with
`NoNodesSatisfyPreconditions`; the attempt absorbs that as `Ok(false)` and a
step never surfaces the error. -/
theorem c3_witness :
    isErrNNSP (step_conversation mgrC3 4 convN 3 []).1 = false ∧
    attempt_to_make_move mgrC3 4 convN 3 [] = (.ok (false, convN), []) := by
  have h := c3_step_never_propagates_nnsp
    (T := Nat) (M := Nat) (N := Nat) (C := Unit)
  constructor
  · exact h.1 mgrC3 4 convN 3 []
  · have h2 := h.2.1 mgrC3 4 convN 3 [] (by decide)
    exact h2.trans (by decide)

end ClaimC3

section ClaimC6

/-- C6: `get_next_speaker_moves` returns the goal-proposed moves of goals
whose pursuer agrees with the current speaker — in some order, a permutation
of the proposals (shuffled when more than one) — followed by the current
pushed-obligation moves of the speaker sorted ascending by urgency with ties
broken by descending remaining TTL; reversed (the order in which
`attempt_to_speak` consumes the list), the obligations come first, highest
urgency first, and the goal moves last. -/
theorem c6_next_speaker_moves_order {T M C : Type} [DecidableEq T]
    [DecidableEq M] :
    ∀ (c : Conversation T M C) (rng : Rng),
      ∃ g : List M,
        g.Perm (goalProposalMoves c) ∧
        (c.get_next_speaker_moves rng).1 =
          g ++ (sortedObligations c).map Prod.fst ∧
        List.Sorted oblRel (sortedObligations c) ∧
        (sortedObligations c).Perm c.get_my_state.pushed_obligations ∧
        ((c.get_next_speaker_moves rng).1).reverse =
          ((sortedObligations c).map Prod.fst).reverse ++ g.reverse ∧
        List.Sorted (fun a b => oblRel b a) (sortedObligations c).reverse := by
  intro c rng
  by_cases h : 1 < (goalProposalMoves c).length
  · have hmain : (c.get_next_speaker_moves rng).1 =
        (shuffle (goalProposalMoves c) rng).1 ++
          (sortedObligations c).map Prod.fst := by
      simp [Conversation.get_next_speaker_moves, h]
    refine ⟨(shuffle (goalProposalMoves c) rng).1, shuffle_perm _ _, hmain,
      List.sorted_insertionSort oblRel _, List.perm_insertionSort oblRel _,
      ?_, List.pairwise_reverse.mpr (List.sorted_insertionSort oblRel _)⟩
    rw [hmain, List.reverse_append]
  · have hmain : (c.get_next_speaker_moves rng).1 =
        goalProposalMoves c ++ (sortedObligations c).map Prod.fst := by
      simp [Conversation.get_next_speaker_moves, h]
    refine ⟨goalProposalMoves c, List.Perm.refl _, hmain,
      List.sorted_insertionSort oblRel _, List.perm_insertionSort oblRel _,
      ?_, List.pairwise_reverse.mpr (List.sorted_insertionSort oblRel _)⟩
    rw [hmain, List.reverse_append]

end ClaimC6

section ClaimC10

variable {T M N C : Type} [DecidableEq T] [DecidableEq M] [DecidableEq N]

theorem tryAlternatives_ok_or_nnsp (E : Expander T M N C)
    (c : Conversation T M C)
    (fc : ETree T M N C → Rng → Res T M (ETree T M N C) × Rng)
    (P : N → Prop)
    (hfc : ∀ (ch : N) (mv2 : MoveNode T M N C) (rng : Rng),
      E.get_node ch = some mv2 → P ch →
      (∃ t2 rng2, fc (.mk ch mv2 []) rng = (.ok t2, rng2)) ∨
      (∃ rng2, fc (.mk ch mv2 []) rng
        = (.err .noNodesSatisfyPreconditions, rng2)))
    (part : List N)
    (hpart : ∀ ch ∈ part, (∃ mv2, E.get_node ch = some mv2) ∧ P ch) :
    ∀ (ids : List Nat) (rng : Rng), (∀ i ∈ ids, i < part.length) →
      (∃ t2 rng2, tryAlternatives E c fc part ids rng = (.ok t2, rng2)) ∨
      (∃ rng2, tryAlternatives E c fc part ids rng
        = (.err .noNodesSatisfyPreconditions, rng2)) := by
  intro ids
  induction ids with
  | nil => intro rng _; exact Or.inr ⟨rng, rfl⟩
  | cons i rest ih =>
    intro rng hbound
    have hi : i < part.length := hbound i (List.mem_cons_self _ _)
    rcases hg : part.get? i with _ | ch
    · exact absurd hi (by simpa using List.get?_eq_none.mp hg)
    · have hmem : ch ∈ part := List.get?_mem hg
      obtain ⟨⟨mv2, hmv2⟩, hP⟩ := hpart ch hmem
      by_cases hpre : mv2.precondition.check c = true
      · have hred : tryAlternatives E c fc part (i :: rest) rng
            = fc (.mk ch mv2 []) rng := by
          simp only [tryAlternatives, hg, hmv2, hpre, if_true]
        rw [hred]
        exact hfc ch mv2 rng hmv2 hP
      · have hred : tryAlternatives E c fc part (i :: rest) rng
            = tryAlternatives E c fc part rest rng := by
          simp only [tryAlternatives, hg, hmv2]
          rw [if_neg hpre]
        rw [hred]
        exact ih rng (fun j hj => hbound j (List.mem_cons_of_mem _ hj))

theorem chainParts_ok_or_nnsp (E : Expander T M N C)
    (c : Conversation T M C)
    (fc : ETree T M N C → Rng → Res T M (ETree T M N C) × Rng)
    (P : N → Prop)
    (hfc : ∀ (ch : N) (mv2 : MoveNode T M N C) (rng : Rng),
      E.get_node ch = some mv2 → P ch →
      (∃ t2 rng2, fc (.mk ch mv2 []) rng = (.ok t2, rng2)) ∨
      (∃ rng2, fc (.mk ch mv2 []) rng
        = (.err .noNodesSatisfyPreconditions, rng2))) :
    ∀ (parts : List (List N)) (skip : Option Nat) (rng : Rng),
      (∀ part ∈ parts, ∀ ch ∈ part, (∃ mv2, E.get_node ch = some mv2) ∧ P ch) →
      (∃ subs rng2, chainParts E c fc skip parts rng = (.ok subs, rng2)) ∨
      (∃ rng2, chainParts E c fc skip parts rng
        = (.err .noNodesSatisfyPreconditions, rng2)) := by
  intro parts
  induction parts with
  | nil => intro skip rng _; exact Or.inl ⟨[], rng, rfl⟩
  | cons part rest ih =>
    intro skip rng hparts
    rcases hsh : shuffle ((List.range part.length).filter
        (fun i => decide (some i ≠ skip))) rng with ⟨ids2, rng1⟩
    have hids2 : ∀ i ∈ ids2, i < part.length := by
      intro i hi
      have hp := shuffle_perm ((List.range part.length).filter
        (fun i => decide (some i ≠ skip))) rng
      rw [hsh] at hp
      have hmem := hp.subset hi
      exact List.mem_range.mp (List.mem_filter.mp hmem).1
    have htry := tryAlternatives_ok_or_nnsp E c fc P hfc part
      (hparts part (List.mem_cons_self _ _)) ids2 rng1 hids2
    rcases htry with ⟨t2, rng2, heq⟩ | ⟨rng2, heq⟩
    · rcases ih skip rng2 (fun q hq ch hch => hparts q
        (List.mem_cons_of_mem _ hq) ch hch) with
        ⟨subs, rng3, heq2⟩ | ⟨rng3, heq2⟩
      · exact Or.inl ⟨t2 :: subs, rng3, by
          simp only [chainParts, hsh, heq, heq2]⟩
      · exact Or.inr ⟨rng3, by
          simp only [chainParts, hsh, heq, heq2]⟩
    · exact Or.inr ⟨rng2, by
        simp only [chainParts, hsh, heq]⟩

theorem chainParts_empty_not_ok (E : Expander T M N C)
    (c : Conversation T M C)
    (fc : ETree T M N C → Rng → Res T M (ETree T M N C) × Rng) :
    ∀ (parts : List (List N)) (skip : Option Nat) (rng : Rng),
      [] ∈ parts →
      ∀ (subs : List (ETree T M N C)) (rng2 : Rng),
        chainParts E c fc skip parts rng ≠ (.ok subs, rng2) := by
  intro parts
  induction parts with
  | nil => intro skip rng hmem; exact absurd hmem (List.not_mem_nil _)
  | cons part rest ih =>
    intro skip rng hmem subs rng2 heq
    rcases List.mem_cons.mp hmem with hpe | hmem2
    · subst hpe
      simp [chainParts, shuffle, shuffleAux, tryAlternatives] at heq
    · rcases hsh : shuffle ((List.range part.length).filter
          (fun i => decide (some i ≠ skip))) rng with ⟨ids2, rng1⟩
      rcases ht : tryAlternatives E c fc part ids2 rng1 with ⟨rt, rngt⟩
      simp only [chainParts, hsh, ht] at heq
      match rt, heq with
      | .ok sub, heq =>
        rcases hc : chainParts E c fc skip rest rngt with ⟨rc, rngc⟩
        dsimp only at heq
        rw [hc] at heq
        match rc, heq with
        | .ok subs2, heq => exact ih skip rngt hmem2 subs2 rngc hc
        | .err e, heq => simp at heq
        | .panicked, heq => simp at heq
      | .err e, heq => simp at heq
      | .panicked, heq => simp at heq

theorem forward_chain_ok_or_nnsp (E : Expander T M N C)
    (c : Conversation T M C) (rank : N → Nat)
    (hclosed : ∀ p ∈ E.expander_nodes, ∀ part ∈ p.2.parts, ∀ ch ∈ part,
      (E.get_node ch).isSome = true)
    (hranked : ∀ p ∈ E.expander_nodes, ∀ part ∈ p.2.parts, ∀ ch ∈ part,
      rank ch < rank p.1) :
    ∀ (fuel : Nat) (n : N) (mv : MoveNode T M N C),
      E.get_node n = some mv → rank n < fuel →
      ∀ (skip : Option Nat) (rng : Rng),
        (∃ t2 rng2, forward_chain E c fuel (.mk n mv []) skip rng
          = (.ok t2, rng2)) ∨
        (∃ rng2, forward_chain E c fuel (.mk n mv []) skip rng
          = (.err .noNodesSatisfyPreconditions, rng2)) := by
  intro fuel
  induction fuel with
  | zero => intro n mv _ hrank; exact absurd hrank (by omega)
  | succ f ihf =>
    intro n mv hget hrank skip rng
    have hnmem : (n, mv) ∈ E.expander_nodes := findVal_mem n mv _ hget
    have hparts : ∀ part ∈ mv.parts, ∀ ch ∈ part,
        (∃ mv2, E.get_node ch = some mv2) ∧ rank ch < f := by
      intro part hp ch hc
      constructor
      · have hs := hclosed (n, mv) hnmem part hp ch hc
        exact Option.isSome_iff_exists.mp hs
      · have hlt : rank ch < rank n := hranked (n, mv) hnmem part hp ch hc
        omega
    have hchain := chainParts_ok_or_nnsp E c
      (fun t2 rng2 => forward_chain E c f t2 none rng2)
      (fun ch => rank ch < f)
      (fun ch mv2 rng2 hg hp => ihf ch mv2 hg hp none rng2)
      mv.parts skip rng hparts
    rcases hchain with ⟨subs, rng2, heq⟩ | ⟨rng2, heq⟩
    · exact Or.inl ⟨.mk n mv subs, rng2, by
        simp only [forward_chain, ETree.move_node, ETree.expander_node,
          ETree.parts, heq, List.nil_append]⟩
    · exact Or.inr ⟨rng2, by
        simp only [forward_chain, ETree.move_node, heq]⟩

theorem forward_chain_empty_not_ok (E : Expander T M N C)
    (c : Conversation T M C) (fuel : Nat) (n : N) (mv : MoveNode T M N C)
    (hempty : [] ∈ mv.parts) (skip : Option Nat) (rng : Rng) :
    ∀ (t2 : ETree T M N C) (rng2 : Rng),
      forward_chain E c fuel (.mk n mv []) skip rng ≠ (.ok t2, rng2) := by
  intro t2 rng2 heq
  match fuel, heq with
  | 0, heq => simp [forward_chain] at heq
  | f + 1, heq =>
    rcases hc : chainParts E c
        (fun t3 rng3 => forward_chain E c f t3 none rng3) skip mv.parts rng
      with ⟨rc, rngc⟩
    simp only [forward_chain, ETree.move_node, hc] at heq
    match rc, heq with
    | .ok subs, heq =>
      exact chainParts_empty_not_ok E c _ mv.parts skip rng hempty subs rngc hc
    | .err e, heq => simp at heq
    | .panicked, heq => simp at heq

/-- C10: a registered node one of whose OR-groups is empty can never be
realized: in a registry whose part references are all registered and acyclic
(witnessed by a rank function that drops from parents to children, with
enough fuel for the recursion), forward-chaining that node always fails with
the error `NoNodesSatisfyPreconditions` — not a panic and not undefined
behaviour, although the `MoveNode` documentation declares the case
undefined — and the candidate loop of `expand_satisfying` then falls through
to the remaining candidate nodes. -/
theorem c10_empty_part_group (E : Expander T M N C) (c : Conversation T M C)
    (rank : N → Nat) (fuel : Nat) (n : N) (mv : MoveNode T M N C)
    (hclosed : ∀ p ∈ E.expander_nodes, ∀ part ∈ p.2.parts, ∀ ch ∈ part,
      (E.get_node ch).isSome = true)
    (hranked : ∀ p ∈ E.expander_nodes, ∀ part ∈ p.2.parts, ∀ ch ∈ part,
      rank ch < rank p.1)
    (hget : E.get_node n = some mv)
    (hempty : [] ∈ mv.parts)
    (hfuel : rank n < fuel)
    (hpre : mv.precondition.check c = true) :
    (∀ (skip : Option Nat) (rng : Rng),
      (forward_chain E c fuel (.mk n mv []) skip rng).1
        = .err .noNodesSatisfyPreconditions) ∧
    (∀ (rest : List (ETree T M N C)) (rng : Rng),
      expandLoop E fuel c (.mk n mv [] :: rest) rng =
        expandLoop E fuel c rest
          (forward_chain E c fuel (.mk n mv []) none rng).2) := by
  have hmain : ∀ (skip : Option Nat) (rng : Rng),
      (forward_chain E c fuel (.mk n mv []) skip rng).1
        = .err .noNodesSatisfyPreconditions := by
    intro skip rng
    rcases forward_chain_ok_or_nnsp E c rank hclosed hranked fuel n mv hget
        hfuel skip rng with ⟨t2, rng2, heq⟩ | ⟨rng2, heq⟩
    · exact absurd heq (forward_chain_empty_not_ok E c fuel n mv hempty
        skip rng t2 rng2)
    · rw [heq]
  refine ⟨hmain, ?_⟩
  intro rest rng
  rcases hf : forward_chain E c fuel (.mk n mv []) none rng with ⟨rf, rngf⟩
  have hrf : rf = .err .noNodesSatisfyPreconditions := by
    have hh := hmain none rng
    rw [hf] at hh
    exact hh
  subst hrf
  simp [expandLoop, ETree.move_node, hpre, hf]

/-- Witness for C10 at the registry `exC10` (node 3 has part groups
`[[1], []]`, node 1 is a registered leaf, the identity works as the rank
function): forward chaining node 3 fails with
`NoNodesSatisfyPreconditions`, and the candidate loop moves on. -/
theorem c10_witness :
    (forward_chain exC10 convN 4 (.mk 3 nodeC10 []) none []).1
      = .err .noNodesSatisfyPreconditions ∧
    expandLoop exC10 4 convN [.mk 3 nodeC10 []] [] =
      expandLoop exC10 4 convN []
        (forward_chain exC10 convN 4 (.mk 3 nodeC10 []) none []).2 := by
  have h := c10_empty_part_group exC10 convN (fun x => x) 4 3 nodeC10
    (by decide) (by decide) rfl (by decide) (by decide) rfl
  exact ⟨h.1 none [], h.2 [] []⟩

end ClaimC10

end Cercopes
